import Mathlib

/-!
Verification of the `ai-lotto-data` harvesting scripts.

This file is a shallow embedding, in Lean 4, of the pure computational core of
the repository's five Python scripts:

* `scripts/update_winner_stores.py` — `is_online_store`, `normalize_region`,
  `parse_rank2_rows`, the rank-2 pagination loop of `crawl_one_round`,
  `find_latest_round_by_api`;
* `scripts/update_region_1to2.py` — `detect_sido`,
  `extract_address_from_row_cells`, `parse_rows_from_table_for_rank`,
  `fetch_rank_rows`, `is_online_row`, `tally`, `get_latest_round_guess`;
* `scripts/update_prize_2to5.py` — `guess_latest_round`, `prune_rounds`;
* `scripts/update_heatmap.py` — `get_latest_round_by_date`.

Modelling conventions:

* HTML fetching and BeautifulSoup parsing are upstream of the embedded logic:
  a page source is a function `Nat → Option …` giving, per page number, the
  cell texts of the located table (`none` = table not found), and a round
  oracle is `Nat → Bool` (total) or `Nat → Except Unit …` (fallible HTTP).
* Python strings are Lean `String`s; the few regular expressions the scripts
  use are implemented character by character with the same semantics on the
  relevant alphabet (Hangul syllables, ASCII letters, digits, punctuation).
* Python `while` loops are embedded with an explicit fuel argument that mirrors
  the loop's own bound (page ceilings, retry counts, the `hi > 10000` sanity
  ceiling), keeping every definition executable by the kernel.
* Python exceptions swallowed by `except: pass` are modelled with `Except`
  values inspected at the catch site; exceptions that escape a function make
  its embedding return `Except`/`Option`.
-/

/-! ## Text utilities shared by the scripts -/

/-- Leading-whitespace strip (left part of Python `str.strip()`). -/
def stripLeft (l : List Char) : List Char := l.dropWhile Char.isWhitespace

/-- Python `str.strip()`: drop whitespace on both ends. -/
def pyStripL (l : List Char) : List Char :=
  ((l.dropWhile Char.isWhitespace).reverse.dropWhile Char.isWhitespace).reverse

/-- Python `str.strip()` on `String`. -/
def pyStrip (s : String) : String := ⟨pyStripL s.data⟩

/-- Collapse every whitespace run to a single space; the flag records whether
the previous emitted character closed a whitespace run. -/
def collapseWs : Bool → List Char → List Char
  | _, [] => []
  | prevWs, c :: cs =>
    if c.isWhitespace then
      if prevWs then collapseWs true cs else ' ' :: collapseWs true cs
    else c :: collapseWs false cs

/-- `normalize_text(s)` of `update_region_1to2.py`:
`re.sub(r"\s+", " ", (s or "").strip())`. -/
def normalize_text (s : String) : String := ⟨collapseWs false (pyStripL s.data)⟩

/-- Python `" ".join(cells)`. -/
def joinSep (sep : String) : List String → String
  | [] => ""
  | [x] => x
  | x :: xs => x ++ sep ++ joinSep sep xs

/-- `" ".join` specialised to a single space. -/
def joinSpace (cells : List String) : String := joinSep " " cells

/-- Substring test on character lists: Python's `needle in hay`. -/
def listContains (hay needle : List Char) : Bool :=
  (List.range (hay.length + 1)).any (fun i => needle.isPrefixOf (hay.drop i))

/-- Python's `needle in hay` on `String`. -/
def strContains (hay needle : String) : Bool := listContains hay.data needle.data

/-- Word splitter for Python `str.split()` (split on whitespace runs,
dropping empty fields); `acc` holds the current word reversed. -/
def wordsAux : List Char → List Char → List (List Char)
  | [], acc => if acc.isEmpty then [] else [acc.reverse]
  | c :: cs, acc =>
    if c.isWhitespace then
      if acc.isEmpty then wordsAux cs [] else acc.reverse :: wordsAux cs []
    else wordsAux cs (c :: acc)

/-- Python `str.split()` with no argument. -/
def pySplit (s : String) : List String := (wordsAux s.data []).map (fun l => ⟨l⟩)

/-! ## `update_heatmap.py`: date-derived round resolution

`get_latest_round_by_date` reads the KST clock once.  We model the clock value
as `delta`, the number of seconds elapsed since the anchor instant
`ANCHOR_DATE` = 2024-12-28 20:00:00 KST (round 1152), which was a Saturday
(Python `weekday() = 5`) at second-of-day 72000.  `timedelta.days` is floor
division of the elapsed seconds by 86400, and `datetime.weekday`/`.hour` are
derived from the absolute KST clock. -/

/-- `ANCHOR_ROUND = 1152`. -/
def ANCHOR_ROUND : Nat := 1152

/-- Seconds of day of the anchor instant (20:00 KST). -/
def anchorSecOfDay : Nat := 72000

/-- Python `weekday()` (Monday = 0) of the instant `delta` seconds after the
anchor, the anchor being a Saturday (5). -/
def nowWeekday (delta : Nat) : Nat := (5 + (anchorSecOfDay + delta) / 86400) % 7

/-- Python `.hour` of the instant `delta` seconds after the anchor. -/
def nowHour (delta : Nat) : Nat := ((anchorSecOfDay + delta) % 86400) / 3600

/-- `get_latest_round_by_date()` of `update_heatmap.py`:
`weeks = (now - ANCHOR_DATE).days // 7; curr = ANCHOR_ROUND + weeks;`
`if now.weekday() == 5 and now.hour < 21: curr -= 1`. -/
def get_latest_round_by_date (delta : Nat) : Nat :=
  let weeks := delta / 86400 / 7
  let curr := ANCHOR_ROUND + weeks
  if nowWeekday delta = 5 ∧ nowHour delta < 21 then curr - 1 else curr

/-- The spec's formula, written with a single floor division by seven days:
`candidate = roundIndex₀ + floor((now − timestamp₀) / 7days)`, minus one on
the draw weekday before the publish hour. -/
def specDateResolver (delta : Nat) : Nat :=
  let candidate := ANCHOR_ROUND + delta / 604800
  if nowWeekday delta = 5 ∧ nowHour delta < 21 then candidate - 1 else candidate

/-- C6: the date-derived resolver computes `anchorRound + floor(Δ/7days)`,
decremented by one exactly when the instant is a Saturday before 21:00 KST;
being a pure function of the clock value it makes no network call, cannot
fail, and two evaluations at the same instant agree. -/
theorem C6_date_resolver (delta : Nat) :
    get_latest_round_by_date delta = specDateResolver delta ∧
    get_latest_round_by_date delta = get_latest_round_by_date delta := by
  refine ⟨?_, rfl⟩
  unfold get_latest_round_by_date specDateResolver
  have h : delta / 86400 / 7 = delta / 604800 := by
    rw [Nat.div_div_eq_div_mul]
  rw [h]

/-! ## `update_winner_stores.py`: online markers, region normalization -/

/-- `ONLINE_STORE_NAME_KEYWORDS`. -/
def ONLINE_STORE_NAME_KEYWORDS : List String := ["인터넷 복권판매사이트"]

/-- `ONLINE_ADDR_KEYWORDS`. -/
def ONLINE_ADDR_KEYWORDS : List String :=
  ["dhlottery.co.kr", "동행복권(dhlottery.co.kr)", "동행복권 (dhlottery.co.kr)"]

/-- `_SIDO_ALIASES`: long-form administrative names to short codes. -/
def SIDO_ALIASES : List (String × String) :=
  [("서울특별시", "서울"), ("서울시", "서울"), ("서울", "서울"),
   ("부산광역시", "부산"), ("부산", "부산"),
   ("대구광역시", "대구"), ("대구", "대구"),
   ("인천광역시", "인천"), ("인천", "인천"),
   ("광주광역시", "광주"), ("광주", "광주"),
   ("대전광역시", "대전"), ("대전", "대전"),
   ("울산광역시", "울산"), ("울산", "울산"),
   ("세종특별자치시", "세종"), ("세종", "세종"),
   ("경기도", "경기"), ("경기", "경기"),
   ("강원특별자치도", "강원"), ("강원도", "강원"), ("강원", "강원"),
   ("충청북도", "충북"), ("충북", "충북"),
   ("충청남도", "충남"), ("충남", "충남"),
   ("전라북도", "전북"), ("전북", "전북"),
   ("전라남도", "전남"), ("전남", "전남"),
   ("경상북도", "경북"), ("경북", "경북"),
   ("경상남도", "경남"), ("경남", "경남"),
   ("제주특별자치도", "제주"), ("제주도", "제주"), ("제주", "제주")]

/-- Python `dict.get(key, default)` on an association list. -/
def aliasGet (tbl : List (String × String)) (key : String) : Option String :=
  (tbl.find? (fun kv => kv.1 = key)).map (fun kv => kv.2)

/-- `is_online_store(store_name, address)` of `update_winner_stores.py`. -/
def is_online_store (store_name address : String) : Bool :=
  let sn := pyStrip store_name
  let ad := pyStrip address
  ONLINE_STORE_NAME_KEYWORDS.any (fun k => strContains sn k) ||
  ONLINE_ADDR_KEYWORDS.any (fun k => strContains ad k) ||
  strContains ad "dhlottery.co.kr"

/-- `normalize_region(store_name, address)` of `update_winner_stores.py`:
returns `(sido, sigungu, channel)`. -/
def normalize_region (store_name address : String) : String × String × String :=
  if is_online_store store_name address then ("온라인", "", "online")
  else
    let addr := pyStrip address
    if addr = "" then ("", "", "offline")
    else
      match pySplit addr with
      | [] => ("", "", "offline")
      | p0 :: rest =>
        let sido := (aliasGet SIDO_ALIASES p0).getD p0
        let sigungu := match rest with | [] => "" | p1 :: _ => p1
        (sido, sigungu, "offline")

/-! `parse_rank2_rows(table, round_no, limit_left)`.  A table is the list of
its rows' `td` cell texts; a produced row is modelled by the
`(store_name, address)` pair, which is what `page_signature_rank2` and the
dedup claims consume. -/

/-- `store_name = t(tds[1])` for a rank-2 row. -/
def r2StoreName (tr : List String) : String := normalize_text (tr.getD 1 "")

/-- `addr_candidates = [t(tds[2])] (+ t(tds[3]) if len >= 4)`;
`address = next((a for a in addr_candidates if a), "")`. -/
def r2Address (tr : List String) : String :=
  let cands := [normalize_text (tr.getD 2 "")] ++
    (if 4 ≤ tr.length then [normalize_text (tr.getD 3 "")] else [])
  ((cands.find? (fun a => a ≠ "")).getD "")

/-- `parse_rank2_rows`: skip rows with fewer than 3 cells or with an empty
store name or address; append `(store, address)`; stop once `limit_left`
rows have been produced (`limit_left = some 0` still lets the first valid
row through, as in the Python `len(out) >= limit_left` check made after
the append). -/
def parse_rank2_rows_go (limit_left : Option Nat) :
    List (List String) → List (String × String) → List (String × String)
  | [], out => out
  | tr :: rest, out =>
    if tr.length < 3 then parse_rank2_rows_go limit_left rest out
    else
      let store := r2StoreName tr
      let addr := r2Address tr
      if store = "" ∨ addr = "" then parse_rank2_rows_go limit_left rest out
      else
        let out := out ++ [(store, addr)]
        match limit_left with
        | some l => if l ≤ out.length then out else parse_rank2_rows_go limit_left rest out
        | none => parse_rank2_rows_go limit_left rest out

/-- `parse_rank2_rows(table, round_no, limit_left)` (the `round_no` and the
constant `method`/`sido` fields of `RawRow` play no role in the claims). -/
def parse_rank2_rows (trs : List (List String)) (limit_left : Option Nat) :
    List (String × String) := parse_rank2_rows_go limit_left trs []

/-! The rank-2 pagination loop of `crawl_one_round`.  `fetch page` yields the
cell rows of the rank-2 table located on that page (`none` = table missing).
`page_signature_rank2` of a parsed row list is the tuple of its
`(store_name, address)` pairs, i.e. the list itself in this model. -/

/-- The `dbg` record of `crawl_one_round`, rank-2 fields. -/
structure CrawlDbg where
  pagesFetched : Nat
  rowsFetched : Nat
  stoppedBy : String
  deriving Repr, DecidableEq

/-- One pass of the `while page <= rank2_max_pages` loop.  `fuel` is
`rank2_max_pages + 1 - page`; `cnt` is the running rank-2 row count
(`sum(1 for r in raw_rows if r.rank == 2)`). -/
def crawlRank2Loop (fetch : Nat → Option (List (List String)))
    (limit : Option Nat) :
    Nat → Nat → List (String × String) → List (String × String) → CrawlDbg →
    List (String × String) × CrawlDbg
  | 0, _page, _prev, acc, dbg =>
    (acc, if dbg.stoppedBy = "" then { dbg with stoppedBy := "max_pages_guard" } else dbg)
  | fuel + 1, page, prev, acc, dbg =>
    if limit.isSome ∧ limit.getD 0 ≤ acc.length then
      (acc, { dbg with stoppedBy := "limit_reached" })
    else
      match fetch page with
      | none => (acc, { dbg with stoppedBy := "no_rank2_table" })
      | some trs =>
        let limit_left := limit.map (fun l => l - acc.length)
        let r2 := parse_rank2_rows trs limit_left
        let dbg := { dbg with pagesFetched := dbg.pagesFetched + 1,
                              rowsFetched := dbg.rowsFetched + r2.length }
        if r2.isEmpty then (acc, { dbg with stoppedBy := "empty_page" })
        else if r2 = prev then (acc, { dbg with stoppedBy := "repeated_page_signature" })
        else crawlRank2Loop fetch limit fuel (page + 1) r2 (acc ++ r2) dbg

/-- The rank-2 portion of `crawl_one_round(session, drw_no, include_rank2,
rank2_limit, rank2_max_pages)`: page 1 is fetched, parsed and kept, then the
loop walks pages `2 .. rank2_max_pages`.  Returns the collected rank-2 rows
and the `dbg` record. -/
def crawl_one_round_rank2 (fetch : Nat → Option (List (List String)))
    (limit : Option Nat) (max_pages : Nat) :
    List (String × String) × CrawlDbg :=
  match fetch 1 with
  | none => ([], ⟨0, 0, ""⟩)
  | some trs1 =>
    let r2p1 := parse_rank2_rows trs1 limit
    let dbg : CrawlDbg := ⟨1, r2p1.length, ""⟩
    if r2p1.isEmpty then ([], { dbg with stoppedBy := "empty_page_1" })
    else if limit.isSome ∧ limit.getD 0 ≤ r2p1.length then
      (r2p1, { dbg with stoppedBy := "limit_reached_on_page_1" })
    else crawlRank2Loop fetch limit (max_pages - 1) 2 r2p1 r2p1 dbg

/-! ## `update_region_1to2.py`: address detection, row parsing, tally -/

/-- `SIDO_LIST`: the seventeen short region codes. -/
def SIDO_LIST : List String :=
  ["서울", "경기", "인천", "부산", "대구", "광주", "대전", "울산",
   "세종", "강원", "충북", "충남", "전북", "전남", "경북", "경남", "제주"]

/-- Python `re` word character (`\w`) over the alphabet these scripts see:
ASCII alphanumerics, underscore, and Hangul syllables. -/
def wordChar (c : Char) : Bool :=
  c.isAlphanum || c = '_' || (0xAC00 ≤ c.toNat && c.toNat ≤ 0xD7A3)

/-- The `\b` test after a match ending at the head of `s` (previous character
is a word character, the codes being Hangul). -/
def boundaryAfter : List Char → Bool
  | [] => true
  | c :: _ => !wordChar c

/-- `detect_sido(addr)`: `SIDO_RE.match(normalize_text(addr))` where
`SIDO_RE = ^(서울|…|제주)\b`.  The seventeen codes are two characters long
and pairwise distinct, so at most one alternative can match at position 0
and the alternation order is immaterial. -/
def detect_sido (addr : String) : Option String :=
  if addr = "" then none
  else
    let a := (normalize_text addr).data
    SIDO_LIST.find? (fun code => code.data.isPrefixOf a && boundaryAfter (a.drop code.data.length))

/-- The match attempt, at one position, of the search regex
`(서울|…|제주)\s+[^|]+` used by `extract_address_from_row_cells`: a code,
then at least one whitespace character, then at least one character that is
not `|` (regex backtracking lets a second whitespace character satisfy
`[^|]+` when the whitespace run is not followed by an eligible character).
Returns `group(0)`. -/
def matchSidoSpaceAt (s : List Char) : Option (List Char) :=
  (SIDO_LIST.find? (fun code =>
      code.data.isPrefixOf s &&
      (let r := s.drop code.data.length
       let run := r.takeWhile Char.isWhitespace
       !run.isEmpty &&
       (2 ≤ run.length ||
        (match r.dropWhile Char.isWhitespace with
         | c :: _ => c ≠ '|'
         | [] => false)))) ).map (fun code =>
    let r := s.drop code.data.length
    code.data ++ r.takeWhile Char.isWhitespace ++
      (r.dropWhile Char.isWhitespace).takeWhile (fun c => c ≠ '|'))

/-- Leftmost-position search of `(서울|…|제주)\s+[^|]+`. -/
def searchSidoSpace : List Char → Option (List Char)
  | [] => none
  | l@(_ :: rest) =>
    match matchSidoSpaceAt l with
    | some g => some g
    | none => searchSidoSpace rest

/-- `extract_address_from_row_cells(cells)`: first non-empty normalized cell
whose text `detect_sido` accepts; otherwise search the `" | "`-joined texts
for a region code followed by whitespace and return the normalized match. -/
def extract_address_from_row_cells (cells : List String) : Option String :=
  let texts := (cells.map normalize_text).filter (fun t => t ≠ "")
  match texts.find? (fun t => (detect_sido t).isSome) with
  | some t => some t
  | none =>
    match searchSidoSpace (joinSep " | " texts).data with
    | some g => some (normalize_text ⟨g⟩)
    | none => none

/-- The digit naming the *other* rank's section label: `2 if rank == 1 else 1`. -/
def otherRankDigit (rank_no : Nat) : Char := if rank_no = 1 then '2' else '1'

/-- The match attempt, at one position, of `{other}\s*등\s*배출점`
(`RANK_LABEL_RE`-style stop pattern of `parse_rows_from_table_for_rank`). -/
def stopLabelAt (d : Char) : List Char → Bool
  | [] => false
  | c :: rest =>
    c = d &&
    (let r1 := rest.dropWhile Char.isWhitespace
     "등".data.isPrefixOf r1 &&
     "배출점".data.isPrefixOf ((r1.drop 1).dropWhile Char.isWhitespace))

/-- `re.search` of the stop pattern over a row's text. -/
def stopSearch (d : Char) (s : String) : Bool :=
  (List.range s.data.length).any (fun i => stopLabelAt d (s.data.drop i))

/-- Row text `normalize_text(tr.get_text(" ", strip=True))`, modelled as the
normalized space-join of the row's cell texts. -/
def rowTxt (tr : List String) : String := normalize_text (joinSpace tr)

/-- Header-signature rejection: `"상호" in h and ("소재지" in h or "주소" in h)`. -/
def isHeaderRow (headerish : String) : Bool :=
  strContains headerish "상호" &&
    (strContains headerish "소재지" || strContains headerish "주소")

/-- No-results rejection: `"조회" in h and "없" in h`. -/
def isNoResultsRow (headerish : String) : Bool :=
  strContains headerish "조회" && strContains headerish "없"

/-- `parse_rows_from_table_for_rank(tb, rank_no)`: emission stops at the
first row whose text matches the other rank's section label; header-shaped
rows, "no results" rows and rows with fewer than 3 cells are skipped;
surviving normalized cell lists are emitted. -/
def parse_rows_from_table_for_rank (trs : List (List String)) (rank_no : Nat) :
    List (List String) :=
  match trs with
  | [] => []
  | tr :: rest =>
    let txt := rowTxt tr
    if txt ≠ "" ∧ stopSearch (otherRankDigit rank_no) txt then []
    else if tr.isEmpty then parse_rows_from_table_for_rank rest rank_no
    else
      let cells := tr.map normalize_text
      let headerish := joinSpace cells
      if isHeaderRow headerish then parse_rows_from_table_for_rank rest rank_no
      else if isNoResultsRow headerish then parse_rows_from_table_for_rank rest rank_no
      else if 3 ≤ cells.length then cells :: parse_rows_from_table_for_rank rest rank_no
      else parse_rows_from_table_for_rank rest rank_no

/-- `store_name = normalize_text(cells[1]) if len(cells) >= 2 else ""`. -/
def regionRowStoreName (cells : List String) : String :=
  if 2 ≤ cells.length then normalize_text (cells.getD 1 "") else ""

/-- `addr = extract_address_from_row_cells(cells) or (normalize_text(cells[2])
if len(cells) >= 3 else "")`. -/
def regionRowAddr (cells : List String) : String :=
  (extract_address_from_row_cells cells).getD
    (if 3 ≤ cells.length then normalize_text (cells.getD 2 "") else "")

/-- `is_online_row(cells)` of `update_region_1to2.py`. -/
def is_online_row (cells : List String) : Bool :=
  ONLINE_STORE_NAME_KEYWORDS.any (fun k => strContains (regionRowStoreName cells) k) ||
  ONLINE_ADDR_KEYWORDS.any (fun k => strContains (regionRowAddr cells) k) ||
  strContains (regionRowAddr cells) "dhlottery.co.kr" ||
  (strContains (normalize_text (joinSpace cells)) "인터넷" &&
    strContains (normalize_text (joinSpace cells)) "dhlottery")

/-! ### `tally` -/

/-- The record returned by `tally(rows)`. -/
structure TallyR where
  totalStores : Nat
  bySido : List (String × Nat)
  internet : Nat
  other : Nat
  offlineTotal : Nat
  onlineTotal : Nat
  deriving Repr, DecidableEq

/-- `by_sido = {s: 0 for s in SIDO_LIST}`. -/
def sidoInit : List (String × Nat) := SIDO_LIST.map (fun s => (s, 0))

/-- `by_sido[s] += 1`: `none` models the `KeyError` Python would raise on a
key absent from the dictionary. -/
def bumpKey : List (String × Nat) → String → Option (List (String × Nat))
  | [], _ => none
  | (k, v) :: rest, s =>
    if k = s then some ((k, v + 1) :: rest)
    else (bumpKey rest s).map (fun r => (k, v) :: r)

/-- The fold inside `tally`. -/
def tallyGo : List (List String) → Nat → List (String × Nat) → Nat → Nat →
    Option TallyR
  | [], total, bs, internet, other =>
    some ⟨total, bs, internet, other, total - internet, internet⟩
  | cells :: rest, total, bs, internet, other =>
    let total := total + 1
    if is_online_row cells then tallyGo rest total bs (internet + 1) other
    else
      let addr := (extract_address_from_row_cells cells).getD ""
      match detect_sido addr with
      | some s =>
        match bumpKey bs s with
        | some bs2 => tallyGo rest total bs2 internet other
        | none => none
      | none => tallyGo rest total bs internet (other + 1)

/-- `tally(rows)` of `update_region_1to2.py` (`none` = `KeyError`). -/
def tally (rows : List (List String)) : Option TallyR :=
  tallyGo rows 0 sidoInit 0 0

/-! ### `fetch_rank_rows`, rank-2 pagination with full-row dedup -/

/-- `key = "|".join(cells)`. -/
def rowKey (cells : List String) : String := joinSep "|" cells

/-- `signature = "|".join("#".join(r) for r in rows[:10])`. -/
def pageSig (rows : List (List String)) : String :=
  joinSep "|" ((rows.take 10).map (fun r => joinSep "#" r))

/-- The inner `for cells in rows` block of `fetch_rank_rows`: add rows whose
key is unseen, counting the additions. -/
def addUnseen : List (List String) → List String → List (List String) → Nat →
    List String × List (List String) × Nat
  | [], seen, acc, n => (seen, acc, n)
  | cells :: rest, seen, acc, n =>
    let k := rowKey cells
    if k ∈ seen then addUnseen rest seen acc n
    else addUnseen rest (k :: seen) (acc ++ [cells]) (n + 1)

/-- Result of the rank-2 page walk of `fetch_rank_rows`. -/
structure RegionFetchR where
  rows : List (List String)
  pagesFetched : Nat
  deriving Repr, DecidableEq

/-- The `for page in range(1, MAX_PAGES + 1)` loop of `fetch_rank_rows` for
rank 2.  `fetch page` gives the rank-2 table rows located on that page
(`none` = `find_rank_table` failed); `hint` stands for the
`extract_max_page_for_rank` value read off page 1, passed as a parameter.
The walk stops on a missing table, a repeated page signature, a page adding
no new row, or the page hint; `fuel` is the number of loop iterations left. -/
def fetchRankRowsGo (fetch : Nat → Option (List (List String)))
    (hint : Option Nat) :
    Nat → Nat → Option String → List String → List (List String) → Nat →
    RegionFetchR
  | 0, _page, _prev, _seen, acc, fetched => ⟨acc, fetched⟩
  | fuel + 1, page, prev, seen, acc, fetched =>
    match fetch page with
    | none => ⟨acc, fetched + 1⟩
    | some trs =>
      let rows := parse_rows_from_table_for_rank trs 2
      let sig := pageSig rows
      if prev = some sig then ⟨acc, fetched + 1⟩
      else
        match addUnseen rows seen acc 0 with
        | (seen2, acc2, newCnt) =>
          if newCnt = 0 then ⟨acc2, fetched + 1⟩
          else
            match hint with
            | some h =>
              if h ≤ page then ⟨acc2, fetched + 1⟩
              else fetchRankRowsGo fetch hint fuel (page + 1) (some sig) seen2 acc2 (fetched + 1)
            | none => fetchRankRowsGo fetch hint fuel (page + 1) (some sig) seen2 acc2 (fetched + 1)

/-- The rank-2 branch of `fetch_rank_rows(session, round_no, 2)`. -/
def fetch_rank_rows (fetch : Nat → Option (List (List String)))
    (hint : Option Nat) (max_pages : Nat) : RegionFetchR :=
  fetchRankRowsGo fetch hint max_pages 1 none [] [] 0

/-! ### `get_latest_round_guess`: probe walk that propagates fetch errors -/

/-- The JSON shape `get_latest_round_guess` inspects: `returnValue` equality
with `"success"` and the `drwNo` field (`none` when absent or not an `int`). -/
structure RoundJson where
  retSuccess : Bool
  drwNo : Option Nat
  deriving Repr, DecidableEq

/-- `is_success_round(d)`. -/
def is_success_round (d : RoundJson) : Bool :=
  d.retSuccess && (match d.drwNo with | some n => 0 < n | none => false)

/-- `get_latest_round_guess(session, max_tries)` of `update_region_1to2.py`:
walk from the starting candidate, following `drwNo`-confirmed successes
upward; a failed fetch propagates (`fetch_json` raises through this
function), and exhausting `max_tries` raises `RuntimeError` (`Except.error`). -/
def get_latest_round_guess (fetchR : Nat → Except Unit RoundJson) :
    Nat → Nat → Except Unit Nat
  | 0, _cand => .error ()
  | tries + 1, cand =>
    match fetchR cand with
    | .error e => .error e
    | .ok js =>
      if is_success_round js ∧ js.drwNo = some cand then
        match fetchR (cand + 1) with
        | .error e => .error e
        | .ok js2 =>
          if is_success_round js2 then get_latest_round_guess fetchR tries (cand + 1)
          else .ok cand
      else get_latest_round_guess fetchR tries (cand - 1)

/-! ## `update_prize_2to5.py`: `guess_latest_round` and `prune_rounds` -/

/-- The backward correction loop of `guess_latest_round`
(`for _ in range(30)`): a raised `fetch_round_exists` is caught by
`except: pass` and handled like a `False` answer.  The probe is
`Nat → Except Unit Bool`: `.error ()` is a transport failure. -/
def guessDown (probe : Nat → Except Unit Bool) : Nat → Nat → Nat
  | 0, cand => cand
  | fuel + 1, cand =>
    match probe cand with
    | .ok true => cand
    | _ =>
      let cand2 := cand - 1
      if cand2 ≤ 1 then 1 else guessDown probe fuel cand2

/-- The forward loop of `guess_latest_round` (`for _ in range(max_step)`):
a raised probe is caught and, like a `False` answer, ends the walk. -/
def guessForward (probe : Nat → Except Unit Bool) : Nat → Nat → Nat
  | 0, latest => latest
  | fuel + 1, latest =>
    match probe (latest + 1) with
    | .ok true => guessForward probe fuel (latest + 1)
    | _ => latest

/-- `guess_latest_round(start, max_step)` of `update_prize_2to5.py`.  Both
loops swallow probe exceptions, so the function is total and returns a
plain round number. -/
def guess_latest_round (probe : Nat → Except Unit Bool)
    (start max_step : Nat) : Nat :=
  guessForward probe max_step (guessDown probe 30 (max 1 start))

/-! ### `prune_rounds` -/

/-- `KEEP_MAX = 200`. -/
def KEEP_MAX : Nat := 200

/-- Python `str.isdigit()` over the keys these files contain (ASCII digits). -/
def isdigitS (s : String) : Bool := s ≠ "" && s.data.all Char.isDigit

/-- Python `int(k)` on a digit string. -/
def strToNat (s : String) : Nat :=
  s.data.foldl (fun a c => a * 10 + (c.toNat - 48)) 0

/-- Python `str(k)` on an integer key. -/
def natToStr (n : Nat) : String := toString n

/-- Dictionary membership/lookup: `rounds[key]` with first-match semantics
(a Python dict has unique keys). -/
def dictLookup {V : Type} (rounds : List (String × V)) (key : String) :
    Option V := (rounds.find? (fun kv => kv.1 = key)).map (fun kv => kv.2)

/-- `prune_rounds(rounds)` of `update_prize_2to5.py`:
`keys = [int(k) for k in rounds if str(k).isdigit()]; keys.sort(reverse=True);`
`keep = set(keys[:KEEP_MAX]);`
`return {str(k): rounds[str(k)] for k in keep if str(k) in rounds}`.
Python's `sort(reverse=True)` is modelled by `insertionSort` with `≥`, and
the `set` by deduplication; set iteration order is unspecified in Python, so
the result is read as a key-value mapping. -/
def prune_rounds {V : Type} (rounds : List (String × V)) : List (String × V) :=
  let keys := ((rounds.map Prod.fst).filter isdigitS).map strToNat
  let sorted := keys.insertionSort (· ≥ ·)
  let keep := (sorted.take KEEP_MAX).dedup
  keep.filterMap (fun k =>
    (dictLookup rounds (natToStr k)).map (fun v => (natToStr k, v)))

/-! ## `update_winner_stores.py`: `find_latest_round_by_api`

The probe `lotto_api_success` is modelled as a total oracle `Nat → Bool`
(claim C1 quantifies over monotone oracles).  The `while` loops carry fuel:
the expansion loop doubles `hi` and stops past the `10000` sanity ceiling,
so fuel 20 is never exhausted for a positive hint; the bisection loop
shrinks `right - left` each iteration, so `right - left` is enough fuel. -/

/-- `while lotto_api_success(hi): lo = hi; hi *= 2; if hi > 10000: break`. -/
def expandGo (ex : Nat → Bool) : Nat → Nat → Nat → Nat × Nat
  | 0, lo, hi => (lo, hi)
  | fuel + 1, lo, hi =>
    if ex hi then
      if 10000 < hi * 2 then (hi, hi * 2) else expandGo ex fuel hi (hi * 2)
    else (lo, hi)

/-- `while left + 1 < right: mid = (left + right) // 2; …`. -/
def bsearchGo (ex : Nat → Bool) : Nat → Nat → Nat → Nat
  | 0, left, _right => left
  | fuel + 1, left, right =>
    if left + 1 < right then
      if ex ((left + right) / 2) then bsearchGo ex fuel ((left + right) / 2) right
      else bsearchGo ex fuel left ((left + right) / 2)
    else left

/-- Number of oracle probes the bisection loop makes. -/
def bsearchProbes (ex : Nat → Bool) : Nat → Nat → Nat → Nat
  | 0, _left, _right => 0
  | fuel + 1, left, right =>
    if left + 1 < right then
      1 + (if ex ((left + right) / 2) then bsearchProbes ex fuel ((left + right) / 2) right
           else bsearchProbes ex fuel left ((left + right) / 2))
    else 0

/-- `find_latest_round_by_api(session, max_hint)` of
`update_winner_stores.py`: exponential expansion from the hint under the
sanity ceiling, then bisection of `[lo, hi]`, returning `left`. -/
def find_latest_round_by_api (ex : Nat → Bool) (max_hint : Nat) : Nat :=
  let p := expandGo ex 20 1 max_hint
  bsearchGo ex (p.2 - p.1) p.1 p.2

/-! ## Claim C1: probe-based round resolution -/

/-- Expansion invariant: starting below the boundary `B ≤ 10000` with a
positive `hi` and enough fuel to pass the sanity ceiling, the expansion
loop ends with `lo ≤ B < hi`. -/
theorem expandGo_spec (B : Nat) (hB2 : B ≤ 10000) :
    ∀ fuel lo hi, lo ≤ B → 1 ≤ hi → 10000 < hi * 2 ^ fuel →
      (expandGo (fun n => decide (n ≤ B)) fuel lo hi).1 ≤ B ∧
      B < (expandGo (fun n => decide (n ≤ B)) fuel lo hi).2 := by
  intro fuel
  induction fuel with
  | zero =>
    intro lo hi hlo hhi hceil
    simp only [pow_zero, mul_one] at hceil
    simp only [expandGo]
    exact ⟨hlo, by omega⟩
  | succ fuel ih =>
    intro lo hi hlo hhi hceil
    simp only [expandGo]
    by_cases h : hi ≤ B
    · rw [if_pos (by simpa using h)]
      by_cases h2 : 10000 < hi * 2
      · rw [if_pos h2]
        exact ⟨h, by omega⟩
      · rw [if_neg h2]
        apply ih hi (hi * 2) h (by omega)
        have he : hi * 2 * 2 ^ fuel = hi * 2 ^ (fuel + 1) := by ring
        omega
    · rw [if_neg (by simpa using h)]
      exact ⟨hlo, by omega⟩

/-- Bisection invariant: with `left ≤ B < right` and fuel at least
`right - left - 1`, the loop returns exactly `B`. -/
theorem bsearchGo_spec (B : Nat) :
    ∀ fuel left right, left ≤ B → B < right → right - left ≤ fuel + 1 →
      bsearchGo (fun n => decide (n ≤ B)) fuel left right = B := by
  intro fuel
  induction fuel with
  | zero =>
    intro left right h1 h2 h3
    simp only [bsearchGo]
    omega
  | succ fuel ih =>
    intro left right h1 h2 h3
    simp only [bsearchGo]
    by_cases hlt : left + 1 < right
    · rw [if_pos hlt]
      by_cases hmid : (left + right) / 2 ≤ B
      · rw [if_pos (by simpa using hmid)]
        exact ih _ _ hmid h2 (by omega)
      · rw [if_neg (by simpa using hmid)]
        exact ih _ _ h1 (by omega) (by omega)
    · rw [if_neg hlt]
      omega

/-- The bisection loop probes the oracle at most `k` times on an interval of
width at most `2 ^ k` — the `O(log(hi − lo))` bound. -/
theorem bsearchProbes_le (ex : Nat → Bool) :
    ∀ k fuel left right, right - left ≤ 2 ^ k →
      bsearchProbes ex fuel left right ≤ k := by
  intro k
  induction k with
  | zero =>
    intro fuel left right hw
    cases fuel with
    | zero => simp [bsearchProbes]
    | succ fuel =>
      simp only [pow_zero] at hw
      simp only [bsearchProbes]
      rw [if_neg (by omega)]
  | succ k ih =>
    intro fuel left right hw
    cases fuel with
    | zero => simp [bsearchProbes]
    | succ fuel =>
      simp only [bsearchProbes]
      have hp : (2 : Nat) ^ (k + 1) = 2 ^ k * 2 := by ring
      by_cases hlt : left + 1 < right
      · rw [if_pos hlt]
        cases hex : ex ((left + right) / 2) with
        | true =>
          rw [if_pos rfl]
          have := ih fuel ((left + right) / 2) right (by omega)
          omega
        | false =>
          rw [if_neg (by simp)]
          have := ih fuel left ((left + right) / 2) (by omega)
          omega
      · rw [if_neg hlt]
        omega

/-- Resolution returns exactly the boundary for every monotone oracle. -/
theorem find_latest_eq (B hint : Nat) (hB1 : 1 ≤ B) (hB2 : B ≤ 10000)
    (hhint : 1 ≤ hint) :
    find_latest_round_by_api (fun n => decide (n ≤ B)) hint = B := by
  unfold find_latest_round_by_api
  have hceil : 10000 < hint * 2 ^ 20 := by
    have h := Nat.mul_le_mul_right (2 ^ 20) hhint
    norm_num at h ⊢
    omega
  have hexp := expandGo_spec B hB2 20 1 hint hB1 hhint hceil
  exact bsearchGo_spec B _ _ _ hexp.1 hexp.2 (by omega)

/-- C1: for every monotone existence oracle with boundary `1 ≤ B ≤ 10000`
(the sanity ceiling) and every positive hint, `find_latest_round_by_api`
returns exactly `B`, the last round for which the oracle answers true; the
bisection phase uses at most `log₂` of the interval width in probes; in
particular, when rounds `1..1300` exist and `1301` does not, resolution
hinted at `1290` returns `1300`. -/
theorem C1_probe_resolution :
    (∀ B hint : Nat, 1 ≤ B → B ≤ 10000 → 1 ≤ hint →
      find_latest_round_by_api (fun n => decide (n ≤ B)) hint = B) ∧
    (∀ (ex : Nat → Bool) (k fuel left right : Nat), right - left ≤ 2 ^ k →
      bsearchProbes ex fuel left right ≤ k) ∧
    find_latest_round_by_api (fun n => decide (n ≤ 1300)) 1290 = 1300 :=
  ⟨find_latest_eq,
   fun ex k fuel left right h => bsearchProbes_le ex k fuel left right h,
   find_latest_eq 1300 1290 (by decide) (by decide) (by decide)⟩

/-- Witness for C1 at the concrete boundary 1300 and hint 1290. -/
theorem C1_probe_resolution_witness :
    (1 ≤ 1300 ∧ 1300 ≤ 10000 ∧ 1 ≤ 1290) ∧
    find_latest_round_by_api (fun n => decide (n ≤ 1300)) 1290 = 1300 :=
  ⟨⟨by decide, by decide, by decide⟩,
   C1_probe_resolution.1 1300 1290 (by decide) (by decide) (by decide)⟩

/-! ## Claim C4: transport failures vs. absent rounds -/

/-- A probe oracle whose boundary is round 1300, with a transport failure on
round 1291 only. -/
def probeC4 (n : Nat) : Except Unit Bool :=
  if n = 1291 then .error () else .ok (decide (n ≤ 1300))

/-- C4 counterexample: `guess_latest_round` of `update_prize_2to5.py`
catches the transport failure on probing round 1291 and treats it exactly
like "round absent": started at 1285 against an oracle whose true boundary
is 1300, it silently returns the stale value 1290 instead of raising. -/
theorem C4_counterexample :
    guess_latest_round probeC4 1285 80 = 1290 ∧
    probeC4 1291 = .error () ∧
    probeC4 1300 = .ok true ∧ probeC4 1301 = .ok false :=
  ⟨rfl, rfl, rfl, rfl⟩

/-- Error propagation: a failing fetch on the starting candidate propagates
out of `get_latest_round_guess` (no stale value is produced). -/
theorem get_latest_round_guess_propagates
    (fetchR : Nat → Except Unit RoundJson) (tries cand : Nat)
    (h : fetchR cand = .error ()) :
    get_latest_round_guess fetchR tries cand = .error () := by
  cases tries with
  | zero => rfl
  | succ tries => simp only [get_latest_round_guess, h]

/-- Soundness of a successful answer: `get_latest_round_guess` returns
`.ok r` only after a fetched confirmation of round `r` and a fetched (not
errored) non-success answer for round `r + 1`; a transport failure is never
converted into an answer. -/
theorem get_latest_round_guess_sound
    (fetchR : Nat → Except Unit RoundJson) :
    ∀ (tries cand r : Nat),
      get_latest_round_guess fetchR tries cand = .ok r →
      ((∃ j, fetchR r = .ok j ∧ is_success_round j = true ∧ j.drwNo = some r) ∧
       (∃ j2, fetchR (r + 1) = .ok j2 ∧ is_success_round j2 = false)) := by
  intro tries
  induction tries with
  | zero => intro cand r h; exact absurd h (by simp [get_latest_round_guess])
  | succ tries ih =>
    intro cand r h
    rw [get_latest_round_guess] at h
    split at h
    · exact absurd h (by simp)
    · rename_i js hjs
      split at h
      · rename_i hc
        split at h
        · exact absurd h (by simp)
        · rename_i js2 hjs2
          split at h
          · exact ih (cand + 1) r h
          · rename_i hs2
            have hr : cand = r := by simpa using h
            subst hr
            exact ⟨⟨js, hjs, hc.1, hc.2⟩,
                   ⟨js2, hjs2, by simpa using hs2⟩⟩
      · rename_i hc
        exact ih (cand - 1) r h

/-- C4 amended: in the region script's resolver `get_latest_round_guess`, a
transport failure propagates distinctly to the caller and a round value is
returned only after error-free probes of that round and the next one; the
prize script's `guess_latest_round`, by contrast, swallows transport
failures (see the counterexample). -/
theorem C4_error_distinction :
    (∀ (fetchR : Nat → Except Unit RoundJson) (tries cand : Nat),
      fetchR cand = .error () →
      get_latest_round_guess fetchR tries cand = .error ()) ∧
    (∀ (fetchR : Nat → Except Unit RoundJson) (tries cand r : Nat),
      get_latest_round_guess fetchR tries cand = .ok r →
      ((∃ j, fetchR r = .ok j ∧ is_success_round j = true ∧ j.drwNo = some r) ∧
       (∃ j2, fetchR (r + 1) = .ok j2 ∧ is_success_round j2 = false))) :=
  ⟨get_latest_round_guess_propagates,
   fun fetchR tries cand r h => get_latest_round_guess_sound fetchR tries cand r h⟩

/-- A well-behaved oracle with boundary 1300 (`drwNo` echoes the round). -/
def fetchG (n : Nat) : Except Unit RoundJson :=
  .ok ⟨decide (n ≤ 1300), if n ≤ 1300 then some n else none⟩

/-- Witness for C4 on concrete oracles: the everywhere-failing oracle makes
the region resolver error out, and against `fetchG` started at 1290 the
resolver's `.ok 1300` answer is backed by error-free probes of 1300 and
1301. -/
theorem C4_error_distinction_witness :
    get_latest_round_guess (fun _ => .error ()) 10 5 = .error () ∧
    ((∃ j, fetchG 1300 = .ok j ∧ is_success_round j = true ∧ j.drwNo = some 1300) ∧
     (∃ j2, fetchG 1301 = .ok j2 ∧ is_success_round j2 = false)) :=
  ⟨C4_error_distinction.1 (fun _ => .error ()) 10 5 rfl,
   C4_error_distinction.2 fetchG 150 1290 1300 rfl⟩

/-! ## Claim C10: `prune_rounds` -/

/-- C10 counterexample: on `{"007": 1, "5": 2}` the numerically greatest
digit-string key is `"007"` (value 7), yet `prune_rounds` drops it — the
kept-key set is rebuilt through `str(int(k))`, which misses non-canonical
digit strings — so the result is `{"5": 2}` even though far fewer than 200
keys were present. -/
theorem C10_counterexample :
    prune_rounds [("007", (1 : Nat)), ("5", 2)] = [("5", 2)] ∧
    isdigitS "007" = true ∧ strToNat "007" = 7 ∧ strToNat "5" = 5 :=
  ⟨rfl, rfl, rfl, rfl⟩

/-- Elements placed before/after the cut of a pairwise-related list are
related across the cut. -/
theorem pairwise_take_drop {α : Type} {r : α → α → Prop} :
    ∀ (l : List α) (n : Nat), l.Pairwise r →
      ∀ a ∈ l.take n, ∀ b ∈ l.drop n, r a b := by
  intro l
  induction l with
  | nil => intro n _ a ha; simp at ha
  | cons x xs ih =>
    intro n hp a ha b hb
    cases n with
    | zero => simp at ha
    | succ n =>
      simp only [List.take_succ_cons, List.mem_cons] at ha
      simp only [List.drop_succ_cons] at hb
      rcases ha with rfl | ha
      · exact (List.pairwise_cons.mp hp).1 b (List.mem_of_mem_drop hb)
      · exact ih n (List.pairwise_cons.mp hp).2 a ha b hb

/-- `filterMap` drops nothing when the function succeeds on every element. -/
theorem length_filterMap_all_some {α β : Type} (f : α → Option β) :
    ∀ l : List α, (∀ a ∈ l, (f a).isSome) → (l.filterMap f).length = l.length := by
  intro l
  induction l with
  | nil => intro _; rfl
  | cons x xs ih =>
    intro h
    have hx := h x (by simp)
    cases hfx : f x with
    | none => rw [hfx] at hx; simp at hx
    | some b =>
      simp only [List.filterMap_cons, hfx, List.length_cons]
      rw [ih (fun a ha => h a (by simp [ha]))]

/-- Dictionary lookup on a no-duplicate-keys association list is membership. -/
theorem dictLookup_eq_some_iff {V : Type} :
    ∀ (rounds : List (String × V)), (rounds.map Prod.fst).Nodup →
      ∀ (k : String) (v : V), (dictLookup rounds k = some v ↔ (k, v) ∈ rounds) := by
  intro rounds
  induction rounds with
  | nil => intro _ k v; simp [dictLookup]
  | cons p rest ih =>
    intro hN k v
    simp only [List.map_cons, List.nodup_cons] at hN
    by_cases hk : p.1 = k
    · subst hk
      have hrest : ∀ w, (p.1, w) ∉ rest := by
        intro w hw
        exact hN.1 (by exact List.mem_map.mpr ⟨(p.1, w), hw, rfl⟩)
      constructor
      · intro h
        have : some p.2 = some v := by
          simpa [dictLookup, List.find?] using h
        simp only [Option.some_inj] at this
        subst this
        exact List.mem_cons_self _ _
      · intro h
        rcases List.mem_cons.mp h with h | h
        · have : v = p.2 := by
            have := congrArg Prod.snd h
            simpa using this
          subst this
          simp [dictLookup, List.find?]
        · exact absurd h (hrest v)
    · constructor
      · intro h
        have h2 : dictLookup rest k = some v := by
          simpa [dictLookup, List.find?, hk] using h
        exact List.mem_cons.mpr (Or.inr ((ih hN.2 k v).mp h2))
      · intro h
        rcases List.mem_cons.mp h with h | h
        · exact absurd (congrArg Prod.fst h).symm hk
        · have := (ih hN.2 k v).mpr h
          simpa [dictLookup, List.find?, hk] using this

/-- C10 amended: on inputs whose digit-string keys are canonical decimal
representations (no leading zeros) and whose keys are unique — which holds
for every mapping the script itself writes, keys being produced by
`str(int)` — `prune_rounds` keeps exactly `min 200 (#digit keys)` entries;
every kept entry is an input entry (original value, digit-string key)
unchanged, so non-digit keys are dropped; and kept keys numerically
dominate every dropped digit key. -/
theorem C10_pruning {V : Type} (rounds : List (String × V))
    (hN : (rounds.map Prod.fst).Nodup)
    (hC : ∀ k ∈ rounds.map Prod.fst, isdigitS k = true → natToStr (strToNat k) = k) :
    (prune_rounds rounds).length ≤ KEEP_MAX ∧
    (prune_rounds rounds).length
      = min KEEP_MAX ((rounds.map Prod.fst).filter isdigitS).length ∧
    (∀ k v, (k, v) ∈ prune_rounds rounds → (k, v) ∈ rounds ∧ isdigitS k = true) ∧
    (∀ k v k2 v2, (k, v) ∈ prune_rounds rounds → (k2, v2) ∈ rounds →
      isdigitS k2 = true → (∀ v3, (k2, v3) ∉ prune_rounds rounds) →
      strToNat k2 < strToNat k) := by
  classical
  set digits := (rounds.map Prod.fst).filter isdigitS with hdig
  set keys := digits.map strToNat with hkeys
  set sorted := keys.insertionSort (· ≥ ·) with hsorteddef
  set f : Nat → Option (String × V) := fun k =>
    (dictLookup rounds (natToStr k)).map (fun v => (natToStr k, v)) with hf
  -- characterization of keys
  have hkeychar : ∀ x ∈ keys, ∃ k0, k0 ∈ rounds.map Prod.fst ∧
      isdigitS k0 = true ∧ strToNat k0 = x ∧ natToStr x = k0 := by
    intro x hx
    rcases List.mem_map.mp hx with ⟨k0, hk0, rfl⟩
    rcases List.mem_filter.mp hk0 with ⟨hk0m, hk0d⟩
    exact ⟨k0, hk0m, hk0d, rfl, hC k0 hk0m hk0d⟩
  have hlookup : ∀ x ∈ keys, ∃ v, dictLookup rounds (natToStr x) = some v := by
    intro x hx
    rcases hkeychar x hx with ⟨k0, hk0m, _, _, hk0n⟩
    rcases List.mem_map.mp hk0m with ⟨p, hp, hp1⟩
    refine ⟨p.2, ?_⟩
    rw [hk0n]
    exact (dictLookup_eq_some_iff rounds hN k0 p.2).mpr (by
      have : (k0, p.2) = p := by
        cases p
        simp only at hp1
        simp [hp1]
      rw [this]; exact hp)
  -- structural facts about the sorted key list
  have hdigitsN : digits.Nodup := hN.filter _
  have hinj : ∀ x ∈ digits, ∀ y ∈ digits, strToNat x = strToNat y → x = y := by
    intro x hx y hy hxy
    rcases List.mem_filter.mp hx with ⟨hxm, hxd⟩
    rcases List.mem_filter.mp hy with ⟨hym, hyd⟩
    have h1 := hC x hxm hxd
    have h2 := hC y hym hyd
    rw [← h1, ← h2, hxy]
  have hkeysN : keys.Nodup := (List.Nodup.map_on hinj) hdigitsN
  have hperm : sorted.Perm keys := List.perm_insertionSort _ _
  have hsortedN : sorted.Nodup := (hperm.nodup_iff).mpr hkeysN
  have hsorted : List.Sorted (· ≥ ·) sorted := List.sorted_insertionSort _ _
  have htakeN : (sorted.take KEEP_MAX).Nodup :=
    List.Nodup.sublist (List.take_sublist _ _) hsortedN
  have hout : prune_rounds rounds = (sorted.take KEEP_MAX).filterMap f := by
    simp only [prune_rounds, hf, ← hdig, ← hkeys, ← hsorteddef,
      List.dedup_eq_self.mpr htakeN]
  have hmemkeep : ∀ x ∈ sorted.take KEEP_MAX, x ∈ keys := by
    intro x hx
    exact (hperm.mem_iff).mp (List.mem_of_mem_take hx)
  have hfsome : ∀ x ∈ sorted.take KEEP_MAX, (f x).isSome := by
    intro x hx
    rcases hlookup x (hmemkeep x hx) with ⟨v, hv⟩
    simp [hf, hv]
  -- the length facts
  have hlen : (prune_rounds rounds).length
      = min KEEP_MAX ((rounds.map Prod.fst).filter isdigitS).length := by
    rw [hout, length_filterMap_all_some f _ hfsome, List.length_take,
      hperm.length_eq]
    simp [hkeys]
  -- membership in the output
  have hmem : ∀ k v, (k, v) ∈ prune_rounds rounds →
      ∃ x ∈ sorted.take KEEP_MAX, natToStr x = k ∧ strToNat k = x ∧
        dictLookup rounds k = some v := by
    intro k v hkv
    rw [hout] at hkv
    rcases List.mem_filterMap.mp hkv with ⟨x, hx, hfx⟩
    rcases hlookup x (hmemkeep x hx) with ⟨w, hw⟩
    simp only [hf, hw, Option.map_some] at hfx
    have h1 : natToStr x = k := (congrArg Prod.fst (Option.some_inj.mp hfx))
    have h2 : w = v := (congrArg Prod.snd (Option.some_inj.mp hfx))
    subst h2
    rcases hkeychar x (hmemkeep x hx) with ⟨k0, _, _, hs, hn⟩
    refine ⟨x, hx, h1, ?_, ?_⟩
    · rw [← h1, hn]
      exact hs
    · rw [← h1]
      exact hw
  refine ⟨?_, hlen, ?_, ?_⟩
  · rw [hlen]; omega
  · intro k v hkv
    rcases hmem k v hkv with ⟨x, hx, hn, _, hl⟩
    refine ⟨(dictLookup_eq_some_iff rounds hN k v).mp hl, ?_⟩
    rcases hkeychar x (hmemkeep x hx) with ⟨k0, _, hk0d, _, hk0n⟩
    rw [← hn, hk0n]
    exact hk0d
  · intro k v k2 v2 hkv hk2 hk2d hnever
    rcases hmem k v hkv with ⟨x, hx, hkn, hsx, hlk⟩
    -- the dropped digit key sits in the dropped part of the sorted list
    have hk2m : k2 ∈ rounds.map Prod.fst := List.mem_map.mpr ⟨(k2, v2), hk2, rfl⟩
    have hx2keys : strToNat k2 ∈ keys :=
      List.mem_map.mpr ⟨k2, List.mem_filter.mpr ⟨hk2m, hk2d⟩, rfl⟩
    have hx2sorted : strToNat k2 ∈ sorted := (hperm.mem_iff).mpr hx2keys
    have hx2take : strToNat k2 ∉ sorted.take KEEP_MAX := by
      intro hmem2
      rcases hlookup _ (hmemkeep _ hmem2) with ⟨w, hw⟩
      have hk2n : natToStr (strToNat k2) = k2 := hC k2 hk2m hk2d
      have : (k2, w) ∈ prune_rounds rounds := by
        rw [hout]
        refine List.mem_filterMap.mpr ⟨strToNat k2, hmem2, ?_⟩
        rw [hk2n] at hw
        simp [hf, hk2n, hw]
      exact hnever w this
    have hx2drop : strToNat k2 ∈ sorted.drop KEEP_MAX := by
      have := (List.take_append_drop KEEP_MAX sorted)
      have hm : strToNat k2 ∈ sorted.take KEEP_MAX ++ sorted.drop KEEP_MAX := by
        rw [this]; exact hx2sorted
      rcases List.mem_append.mp hm with h | h
      · exact absurd h hx2take
      · exact h
    have hge : x ≥ strToNat k2 :=
      pairwise_take_drop sorted KEEP_MAX hsorted x hx _ hx2drop
    have hne : x ≠ strToNat k2 := by
      intro he
      have hTD := List.take_append_drop KEEP_MAX sorted
      have hND : sorted.Nodup := hsortedN
      rw [← hTD, List.nodup_append] at hND
      exact hND.2.2 hx (he ▸ hx2drop)
    omega

/-- Witness for C10 on a concrete canonical mapping. -/
theorem C10_pruning_witness :
    ((([("10", (1 : Nat)), ("7", 2), ("300", 3)]).map Prod.fst).Nodup ∧
      ∀ k ∈ (([("10", (1 : Nat)), ("7", 2), ("300", 3)]).map Prod.fst),
        isdigitS k = true → natToStr (strToNat k) = k) ∧
    (prune_rounds [("10", (1 : Nat)), ("7", 2), ("300", 3)]).length
      = min KEEP_MAX
          ((([("10", (1 : Nat)), ("7", 2), ("300", 3)]).map Prod.fst).filter isdigitS).length :=
  ⟨⟨by decide, by decide⟩,
   (C10_pruning [("10", (1 : Nat)), ("7", 2), ("300", 3)] (by decide) (by decide)).2.1⟩

/-! ## Claims C2 and C3: pagination, dedup, page ceiling -/

/-- A source whose second page partially overlaps the first. -/
def fetchC2 (p : Nat) : Option (List (List String)) :=
  if p = 1 then some [["1", "s1", "a1"], ["2", "s2", "a2"]]
  else if p = 2 then some [["3", "s2", "a2"], ["4", "s3", "a3"]]
  else none

/-- C2 counterexample: the winner-stores harvester deduplicates only whole
repeated pages (by consecutive page signature); when page 2 overlaps page 1
without repeating it, the record `("s2", "a2")` — one `(round, tier)` store
name and address, i.e. one DedupKey — is emitted twice. -/
theorem C2_counterexample :
    (crawl_one_round_rank2 fetchC2 none 120).1
      = [("s1", "a1"), ("s2", "a2"), ("s2", "a2"), ("s3", "a3")] ∧
    ((crawl_one_round_rank2 fetchC2 none 120).1.count ("s2", "a2") = 2) := by
  constructor
  · rfl
  · rfl

/-- `addUnseen` preserves the seen-set invariant and row-key uniqueness. -/
theorem addUnseen_spec :
    ∀ (rows : List (List String)) (seen : List String)
      (acc : List (List String)) (n : Nat),
      (acc.map rowKey).Nodup → (∀ k, k ∈ seen ↔ k ∈ acc.map rowKey) →
      ((addUnseen rows seen acc n).2.1.map rowKey).Nodup ∧
      (∀ k, k ∈ (addUnseen rows seen acc n).1 ↔
        k ∈ (addUnseen rows seen acc n).2.1.map rowKey) := by
  intro rows
  induction rows with
  | nil => intro seen acc n h1 h2; exact ⟨h1, h2⟩
  | cons c rest ih =>
    intro seen acc n h1 h2
    simp only [addUnseen]
    by_cases hk : rowKey c ∈ seen
    · rw [if_pos hk]
      exact ih seen acc n h1 h2
    · rw [if_neg hk]
      apply ih
      · simp only [List.map_append, List.map_cons, List.map_nil]
        rw [List.nodup_append]
        refine ⟨h1, List.nodup_singleton _, ?_⟩
        intro a ha hb
        simp only [List.mem_singleton] at hb
        subst hb
        exact hk ((h2 _).mpr ha)
      · intro k
        simp only [List.mem_cons, List.map_append, List.map_cons, List.map_nil,
          List.mem_append, List.mem_singleton, h2 k]
        tauto

/-- Every state of the rank-2 page walk keeps row keys unique. -/
theorem fetchRankRowsGo_nodup (fetch : Nat → Option (List (List String)))
    (hint : Option Nat) :
    ∀ (fuel page : Nat) (prev : Option String) (seen : List String)
      (acc : List (List String)) (fetched : Nat),
      (acc.map rowKey).Nodup → (∀ k, k ∈ seen ↔ k ∈ acc.map rowKey) →
      ((fetchRankRowsGo fetch hint fuel page prev seen acc fetched).rows.map rowKey).Nodup := by
  intro fuel
  induction fuel with
  | zero => intro page prev seen acc fetched h1 _; exact h1
  | succ fuel ih =>
    intro page prev seen acc fetched h1 h2
    simp only [fetchRankRowsGo]
    cases hfp : fetch page with
    | none => exact h1
    | some trs =>
      simp only []
      by_cases hsig : prev = some (pageSig (parse_rows_from_table_for_rank trs 2))
      · rw [if_pos hsig]
        exact h1
      · rw [if_neg hsig]
        have hspec := addUnseen_spec (parse_rows_from_table_for_rank trs 2) seen acc 0 h1 h2
        rcases hA : addUnseen (parse_rows_from_table_for_rank trs 2) seen acc 0 with
          ⟨seen2, acc2, newCnt⟩
        rw [hA] at hspec
        by_cases hnc : newCnt = 0
        · rw [if_pos hnc]
          exact hspec.1
        · rw [if_neg hnc]
          split
          · split
            · exact hspec.1
            · exact ih _ _ _ _ _ hspec.1 hspec.2
          · exact ih _ _ _ _ _ hspec.1 hspec.2

/-- When every page returns the same non-empty row list, the crawl stops on
the second page with the repeated-page reason, keeping page 1's records
once. -/
theorem crawl_identical_pages (trs : List (List String)) (maxp : Nat)
    (hne : parse_rank2_rows trs none ≠ []) (hmp : 2 ≤ maxp) :
    crawl_one_round_rank2 (fun _ => some trs) none maxp
      = (parse_rank2_rows trs none,
         ⟨2, (parse_rank2_rows trs none).length + (parse_rank2_rows trs none).length,
          "repeated_page_signature"⟩) := by
  obtain ⟨k, hk⟩ : ∃ k, maxp - 1 = k + 1 := ⟨maxp - 2, by omega⟩
  unfold crawl_one_round_rank2
  rw [hk]
  simp only [crawlRank2Loop, Option.isSome_none, Bool.false_eq_true, false_and, if_false,
    Option.map_none]
  cases hp : parse_rank2_rows trs none with
  | nil => exact absurd hp hne
  | cons a as =>
    simp [hp]

/-- C2 amended: the region harvester `fetch_rank_rows` never returns two
rows with the same full-row key (its `seen` set deduplicates across all
pages), and the winner-stores harvester `crawl_one_round` deduplicates
whole repeated pages: an identical page 2 stops the crawl with the
`repeated_page_signature` reason and page 1's records are kept exactly
once; partial overlaps in the winner-stores harvester, however, can repeat
a `(store, address)` record (see the counterexample). -/
theorem C2_dedup :
    (∀ (fetch : Nat → Option (List (List String))) (hint : Option Nat) (maxp : Nat),
      ((fetch_rank_rows fetch hint maxp).rows.map rowKey).Nodup) ∧
    (∀ (trs : List (List String)) (maxp : Nat),
      parse_rank2_rows trs none ≠ [] → 2 ≤ maxp →
      crawl_one_round_rank2 (fun _ => some trs) none maxp
        = (parse_rank2_rows trs none,
           ⟨2, (parse_rank2_rows trs none).length + (parse_rank2_rows trs none).length,
            "repeated_page_signature"⟩)) :=
  ⟨fun fetch hint maxp =>
    fetchRankRowsGo_nodup fetch hint maxp 1 none [] [] 0 (by simp) (by simp),
   crawl_identical_pages⟩

/-- A fifteen-row page (every row: three cells, non-empty name and address). -/
def rows15C2 : List (List String) :=
  (List.range 15).map (fun i => ["r", "s" ++ natToStr i, "a" ++ natToStr i])

/-- Witness for C2: a page of 15 rows repeated verbatim on page 2 yields
exactly the 15 records once, with the repeated-page stop reason, and the
region harvester's output keys are duplicate-free. -/
theorem C2_dedup_witness :
    parse_rank2_rows rows15C2 none ≠ [] ∧ (2 : Nat) ≤ 120 ∧
    ((fetch_rank_rows (fun _ => some rows15C2) none 220).rows.map rowKey).Nodup ∧
    crawl_one_round_rank2 (fun _ => some rows15C2) none 120
      = (parse_rank2_rows rows15C2 none,
         ⟨2, (parse_rank2_rows rows15C2 none).length + (parse_rank2_rows rows15C2 none).length,
          "repeated_page_signature"⟩) ∧
    (parse_rank2_rows rows15C2 none).length = 15 :=
  ⟨by decide, by decide,
   C2_dedup.1 (fun _ => some rows15C2) none 220,
   C2_dedup.2 rows15C2 120 (by decide) (by decide),
   by decide⟩

/-- The crawl loop fetches at most `fuel` further pages. -/
theorem crawlRank2Loop_pages_le (fetch : Nat → Option (List (List String)))
    (limit : Option Nat) :
    ∀ (fuel page : Nat) (prev acc : List (String × String)) (dbg : CrawlDbg),
      (crawlRank2Loop fetch limit fuel page prev acc dbg).2.pagesFetched
        ≤ dbg.pagesFetched + fuel := by
  intro fuel
  induction fuel with
  | zero =>
    intro page prev acc dbg
    simp only [crawlRank2Loop]
    split <;> simp
  | succ fuel ih =>
    intro page prev acc dbg
    simp only [crawlRank2Loop]
    split
    · simp
    · cases hfp : fetch page with
      | none => simp
      | some trs =>
        simp only []
        split
        · simp
        · split
          · simp
          · have := ih (page + 1) (parse_rank2_rows trs (limit.map (fun l => l - acc.length)))
              (acc ++ parse_rank2_rows trs (limit.map (fun l => l - acc.length)))
              { dbg with
                  pagesFetched := dbg.pagesFetched + 1,
                  rowsFetched := dbg.rowsFetched
                    + (parse_rank2_rows trs (limit.map (fun l => l - acc.length))).length }
            simp only [] at this ⊢
            omega

/-- The whole crawl fetches at most `max_pages` pages. -/
theorem crawl_pages_le (fetch : Nat → Option (List (List String)))
    (limit : Option Nat) (maxp : Nat) (h : 1 ≤ maxp) :
    (crawl_one_round_rank2 fetch limit maxp).2.pagesFetched ≤ maxp := by
  unfold crawl_one_round_rank2
  cases hfp : fetch 1 with
  | none => simp
  | some trs =>
    simp only []
    split
    · simp; omega
    · split
      · simp; omega
      · have := crawlRank2Loop_pages_le fetch limit (maxp - 1) 2
          (parse_rank2_rows trs limit) (parse_rank2_rows trs limit)
          ⟨1, (parse_rank2_rows trs limit).length, ""⟩
        simp only [] at this
        omega

/-- The region page walk fetches at most `fuel` more pages. -/
theorem fetchRankRowsGo_pages_le (fetch : Nat → Option (List (List String)))
    (hint : Option Nat) :
    ∀ (fuel page : Nat) (prev : Option String) (seen : List String)
      (acc : List (List String)) (fetched : Nat),
      (fetchRankRowsGo fetch hint fuel page prev seen acc fetched).pagesFetched
        ≤ fetched + fuel := by
  intro fuel
  induction fuel with
  | zero => intro page prev seen acc fetched; simp [fetchRankRowsGo]
  | succ fuel ih =>
    intro page prev seen acc fetched
    simp only [fetchRankRowsGo]
    cases hfp : fetch page with
    | none => simp
    | some trs =>
      simp only []
      split
      · simp
      · rcases hA : addUnseen (parse_rows_from_table_for_rank trs 2) seen acc 0 with
          ⟨seen2, acc2, newCnt⟩
        simp only []
        split
        · simp
        · split
          · split
            · simp
            · have := ih (page + 1) (some (pageSig (parse_rows_from_table_for_rank trs 2)))
                seen2 acc2 (fetched + 1)
              omega
          · have := ih (page + 1) (some (pageSig (parse_rows_from_table_for_rank trs 2)))
              seen2 acc2 (fetched + 1)
            omega

/-- Against a source of ever-fresh, non-empty, non-repeating pages and no
record limit, the crawl loop runs its full fuel and records the
`max_pages_guard` reason. -/
theorem crawlRank2Loop_adversarial (pages : Nat → List (List String))
    (hne : ∀ p, parse_rank2_rows (pages p) none ≠ [])
    (hdiff : ∀ p, parse_rank2_rows (pages (p + 1)) none ≠ parse_rank2_rows (pages p) none) :
    ∀ (fuel q : Nat) (acc : List (String × String)) (dbg : CrawlDbg),
      dbg.stoppedBy = "" →
      ((crawlRank2Loop (fun p => some (pages p)) none fuel (q + 1)
          (parse_rank2_rows (pages q) none) acc dbg).2.stoppedBy = "max_pages_guard" ∧
       (crawlRank2Loop (fun p => some (pages p)) none fuel (q + 1)
          (parse_rank2_rows (pages q) none) acc dbg).2.pagesFetched
         = dbg.pagesFetched + fuel) := by
  intro fuel
  induction fuel with
  | zero =>
    intro q acc dbg hstop
    simp [crawlRank2Loop, hstop]
  | succ fuel ih =>
    intro q acc dbg hstop
    simp only [crawlRank2Loop, Option.isSome_none, Bool.false_eq_true, false_and, if_false,
      Option.map_none']
    cases hp : parse_rank2_rows (pages (q + 1)) none with
    | nil => exact absurd hp (hne (q + 1))
    | cons a as =>
      have hd : parse_rank2_rows (pages (q + 1)) none ≠ parse_rank2_rows (pages q) none :=
        hdiff q
      rw [hp] at hd
      simp only [hp, List.isEmpty_cons, Bool.false_eq_true, if_false, hd, if_false]
      have := ih (q + 1) (acc ++ a :: as)
        { dbg with
            pagesFetched := dbg.pagesFetched + 1,
            rowsFetched := dbg.rowsFetched + (a :: as).length }
        (by simpa using hstop)
      rw [hp] at this
      simp only [] at this ⊢
      constructor
      · exact this.1
      · rw [this.2]
        omega

/-- A source with exactly two pages of data: the rank-2 table is found on
pages 1 and 2 and missing from page 3 on. -/
def fetchC3cex (p : Nat) : Option (List (List String)) :=
  if p = 1 then some [["1", "s1", "a1"]]
  else if p = 2 then some [["2", "s2", "a2"]]
  else none

/-- C3 counterexample: the region harvester `fetch_rank_rows` records no
stop reason at all.  Against `fetchC3cex`, the run with page ceiling 2
stops by exhausting `range(1, MAX_PAGES + 1)` — a ceiling hit, with more
fetches still possible — while the run with ceiling 220 stops normally on
the missing page-3 table after three fetches; yet the function's entire
return value, the collected row list, is identical in both runs, so
hitting the page ceiling is not recorded distinctly from normal
completion. -/
theorem C3_counterexample :
    (fetch_rank_rows fetchC3cex none 2).rows = (fetch_rank_rows fetchC3cex none 220).rows ∧
    (fetch_rank_rows fetchC3cex none 2).pagesFetched = 2 ∧
    (fetch_rank_rows fetchC3cex none 220).pagesFetched = 3 ∧
    (fetch_rank_rows fetchC3cex none 2).rows
      = [["1", "s1", "a1"], ["2", "s2", "a2"]] :=
  ⟨rfl, rfl, rfl, rfl⟩

/-- C3 amended: both harvesters fetch at most the configured page ceiling
for one `(round, tier)` and then stop; in the winner-stores harvester
`crawl_one_round`, hitting the ceiling against an adversarial ever-fresh
source is recorded with the dedicated `max_pages_guard` stop reason,
distinct from the empty string logged on normal completion and from every
other stop reason; the region harvester `fetch_rank_rows` enforces the
same ceiling through its bounded page range but records no stop reason
(see the counterexample). -/
theorem C3_page_ceiling :
    (∀ (fetch : Nat → Option (List (List String))) (limit : Option Nat) (maxp : Nat),
      1 ≤ maxp → (crawl_one_round_rank2 fetch limit maxp).2.pagesFetched ≤ maxp) ∧
    (∀ (fetch : Nat → Option (List (List String))) (hint : Option Nat) (maxp : Nat),
      (fetch_rank_rows fetch hint maxp).pagesFetched ≤ maxp) ∧
    (∀ (pages : Nat → List (List String)) (maxp : Nat), 1 ≤ maxp →
      (∀ p, parse_rank2_rows (pages p) none ≠ []) →
      (∀ p, parse_rank2_rows (pages (p + 1)) none ≠ parse_rank2_rows (pages p) none) →
      ((crawl_one_round_rank2 (fun p => some (pages p)) none maxp).2.stoppedBy
          = "max_pages_guard" ∧
       (crawl_one_round_rank2 (fun p => some (pages p)) none maxp).2.pagesFetched = maxp)) ∧
    ("max_pages_guard" ∉ (["", "empty_page", "empty_page_1", "no_rank2_table",
        "repeated_page_signature", "limit_reached", "limit_reached_on_page_1"] : List String)) := by
  refine ⟨crawl_pages_le, ?_, ?_, by decide⟩
  · intro fetch hint maxp
    have := fetchRankRowsGo_pages_le fetch hint maxp 1 none [] [] 0
    simpa [fetch_rank_rows] using this
  · intro pages maxp hmp hne hdiff
    unfold crawl_one_round_rank2
    simp only [Option.isSome_none, Bool.false_eq_true, false_and, if_false]
    cases hp : parse_rank2_rows (pages 1) none with
    | nil => exact absurd hp (hne 1)
    | cons a as =>
      simp only [hp, List.isEmpty_cons, Bool.false_eq_true, if_false]
      have := crawlRank2Loop_adversarial pages hne hdiff (maxp - 1) 1 (a :: as)
        ⟨1, (a :: as).length, ""⟩ rfl
      rw [hp] at this
      simp only [] at this ⊢
      refine ⟨this.1, ?_⟩
      rw [this.2]
      omega

/-- An adversarial source: pages alternate between two distinct non-empty
row lists, so no two consecutive pages repeat. -/
def pagesC3 (p : Nat) : List (List String) :=
  if p % 2 = 0 then [["r", "s0", "a0"]] else [["r", "s1", "a1"]]

/-- Witness for C3 on concrete sources: page bounds at ceilings 5 and 220,
and the alternating adversarial source hits `max_pages_guard` at ceiling 7. -/
theorem C3_page_ceiling_witness :
    (crawl_one_round_rank2 (fun _ => none) none 5).2.pagesFetched ≤ 5 ∧
    (fetch_rank_rows (fun _ => none) none 220).pagesFetched ≤ 220 ∧
    ((crawl_one_round_rank2 (fun p => some (pagesC3 p)) none 7).2.stoppedBy
        = "max_pages_guard" ∧
     (crawl_one_round_rank2 (fun p => some (pagesC3 p)) none 7).2.pagesFetched = 7) :=
  ⟨C3_page_ceiling.1 (fun _ => none) none 5 (by decide),
   C3_page_ceiling.2.1 (fun _ => none) none 220,
   C3_page_ceiling.2.2.1 pagesC3 7 (by decide)
     (fun p => by
       unfold pagesC3
       by_cases h : p % 2 = 0
       · rw [if_pos h]; decide
       · rw [if_neg h]; decide)
     (fun p => by
       unfold pagesC3
       by_cases h : p % 2 = 0
       · have h2 : ¬((p + 1) % 2 = 0) := by omega
         rw [if_pos h, if_neg h2]; decide
       · have h2 : (p + 1) % 2 = 0 := by omega
         rw [if_neg h, if_pos h2]; decide)⟩

/-! ## Claim C9: online-channel special case takes precedence -/

/-- C9: a row matching an online-channel marker is resolved to the online
region/channel, ahead of any address parsing.  In `normalize_region` the
online test is the first branch, so any store/address matching
`is_online_store` yields `("온라인", "", "online")` no matter which
administrative tokens the address carries; in the region tally an
`is_online_row` row goes to the internet bucket before `detect_sido` runs;
the store-name keyword and a `dhlottery.co.kr` address each suffice; and on
the concrete Scenario D row the online result wins although the text
contains the admin token `서울특별시`/`서울`. -/
theorem C9_online_precedence :
    (∀ sn ad, is_online_store sn ad = true →
      normalize_region sn ad = ("온라인", "", "online")) ∧
    (∀ cells, strContains (regionRowStoreName cells) "인터넷 복권판매사이트" = true →
      is_online_row cells = true) ∧
    (∀ cells, strContains (regionRowAddr cells) "dhlottery.co.kr" = true →
      is_online_row cells = true) ∧
    (∀ cells, is_online_row cells = true →
      tally [cells] = some ⟨1, sidoInit, 1, 0, 0, 1⟩) ∧
    (normalize_region "인터넷 복권판매사이트" "서울특별시 강남구 123"
        = ("온라인", "", "online") ∧
     is_online_row ["1", "인터넷 복권판매사이트", "서울 강남구"] = true ∧
     tally [["1", "인터넷 복권판매사이트", "서울 강남구"]]
        = some ⟨1, sidoInit, 1, 0, 0, 1⟩) := by
  have honline : ∀ cells, is_online_row cells = true →
      tally [cells] = some ⟨1, sidoInit, 1, 0, 0, 1⟩ := by
    intro cells h
    simp only [tally, tallyGo, h, if_pos]
  refine ⟨?_, ?_, ?_, honline, by decide, by decide, honline _ (by decide)⟩
  · intro sn ad h
    unfold normalize_region
    rw [if_pos h]
  · intro cells h
    simp [is_online_row, ONLINE_STORE_NAME_KEYWORDS, h]
  · intro cells h
    simp [is_online_row, h]

/-- Witness for C9 at Scenario D's concrete row. -/
theorem C9_online_precedence_witness :
    is_online_store "인터넷 복권판매사이트" "부산 중구 1" = true ∧
    normalize_region "인터넷 복권판매사이트" "부산 중구 1" = ("온라인", "", "online") ∧
    is_online_row ["2", "가게", "동행복권 (dhlottery.co.kr)"] = true ∧
    tally [["2", "가게", "동행복권 (dhlottery.co.kr)"]] = some ⟨1, sidoInit, 1, 0, 0, 1⟩ :=
  ⟨by decide,
   C9_online_precedence.1 "인터넷 복권판매사이트" "부산 중구 1" (by decide),
   by decide,
   C9_online_precedence.2.2.2.1 ["2", "가게", "동행복권 (dhlottery.co.kr)"] (by decide)⟩

/-! ## Claim C7: tally aggregation invariants -/

/-- A successful `by_sido[s] += 1` raises the bucket sum by one. -/
theorem bumpKey_sum :
    ∀ (bs : List (String × Nat)) (s : String) (bs2 : List (String × Nat)),
      bumpKey bs s = some bs2 →
      (bs2.map Prod.snd).sum = (bs.map Prod.snd).sum + 1 := by
  intro bs
  induction bs with
  | nil => intro s bs2 h; exact absurd h (by simp [bumpKey])
  | cons kv rest ih =>
    intro s bs2 h
    simp only [bumpKey] at h
    by_cases hk : kv.1 = s
    · rw [if_pos hk] at h
      simp only [Option.some_inj] at h
      subst h
      simp only [List.map_cons, List.sum_cons]
      omega
    · rw [if_neg hk] at h
      cases hrest : bumpKey rest s with
      | none => rw [hrest] at h; exact absurd h (by simp)
      | some r2 =>
        rw [hrest] at h
        simp only [Option.map_some', Option.some_inj] at h
        subst h
        simp only [List.map_cons, List.sum_cons, ih s r2 hrest]
        omega

/-- Running invariant of the `tally` fold. -/
theorem tallyGo_spec :
    ∀ (rows : List (List String)) (total : Nat) (bs : List (String × Nat))
      (internet other : Nat) (T : TallyR),
      tallyGo rows total bs internet other = some T →
      total = (bs.map Prod.snd).sum + internet + other →
      internet ≤ total →
      (T.totalStores = (T.bySido.map Prod.snd).sum + T.internet + T.other ∧
       T.offlineTotal = T.totalStores - T.internet ∧
       T.internet ≤ T.totalStores ∧
       T.onlineTotal = T.internet ∧
       T.totalStores = total + rows.length) := by
  intro rows
  induction rows with
  | nil =>
    intro total bs internet other T h hinv hle
    simp only [tallyGo, Option.some_inj] at h
    subst h
    exact ⟨hinv, rfl, hle, rfl, by simp⟩
  | cons cells rest ih =>
    intro total bs internet other T h hinv hle
    simp only [tallyGo] at h
    by_cases ho : is_online_row cells = true
    · rw [if_pos ho] at h
      have hi := ih (total + 1) bs (internet + 1) other T h (by omega) (by omega)
      refine ⟨hi.1, hi.2.1, hi.2.2.1, hi.2.2.2.1, ?_⟩
      have h5 := hi.2.2.2.2
      simp only [List.length_cons]
      omega
    · rw [if_neg ho] at h
      split at h
      · rename_i s hd
        split at h
        · rename_i bs2 hb
          have hs := bumpKey_sum bs s bs2 hb
          have hi := ih (total + 1) bs2 internet other T h (by omega) (by omega)
          refine ⟨hi.1, hi.2.1, hi.2.2.1, hi.2.2.2.1, ?_⟩
          have h5 := hi.2.2.2.2
          simp only [List.length_cons]
          omega
        · exact absurd h (by simp)
      · have hi := ih (total + 1) bs internet (other + 1) T h (by omega) (by omega)
        refine ⟨hi.1, hi.2.1, hi.2.2.1, hi.2.2.2.1, ?_⟩
        have h5 := hi.2.2.2.2
        simp only [List.length_cons]
        omega

/-- C7: every count in a tally is a natural number (hence `≥ 0`); the
per-tier total equals the sum of the per-region counts plus the online
(`internet`) count plus the unclassified (`other`) count, and equals the
number of input records; and the offline subtotal is the total minus the
online count. -/
theorem C7_tally_invariants (rows : List (List String)) (T : TallyR)
    (h : tally rows = some T) :
    T.totalStores = (T.bySido.map Prod.snd).sum + T.internet + T.other ∧
    T.offlineTotal = T.totalStores - T.internet ∧
    T.internet ≤ T.totalStores ∧
    T.onlineTotal = T.internet ∧
    T.totalStores = rows.length ∧
    (∀ e ∈ T.bySido, 0 ≤ e.2) ∧ 0 ≤ T.internet ∧ 0 ≤ T.other := by
  have hspec := tallyGo_spec rows 0 sidoInit 0 0 T h (by simp [sidoInit, SIDO_LIST]) (by omega)
  refine ⟨hspec.1, hspec.2.1, hspec.2.2.1, hspec.2.2.2.1, by simpa using hspec.2.2.2.2,
    fun e _ => Nat.zero_le _, Nat.zero_le _, Nat.zero_le _⟩

/-- Three rows exercising the region, online and unclassified buckets. -/
def rowsC7 : List (List String) :=
  [["1", "가게", "서울 강남구 123"],
   ["1", "인터넷 복권판매사이트", "x"],
   ["1", "가", "화성기지 3"]]

/-- The tally of `rowsC7`, read back from the computation. -/
def tallyC7 : TallyR := (tally rowsC7).getD ⟨0, [], 0, 0, 0, 0⟩

/-- Witness for C7 on the concrete three-row tally. -/
theorem C7_tally_invariants_witness :
    tally rowsC7 = some tallyC7 ∧
    (tallyC7.totalStores
        = (tallyC7.bySido.map Prod.snd).sum + tallyC7.internet + tallyC7.other ∧
     tallyC7.offlineTotal = tallyC7.totalStores - tallyC7.internet ∧
     tallyC7.internet ≤ tallyC7.totalStores ∧
     tallyC7.onlineTotal = tallyC7.internet ∧
     tallyC7.totalStores = rowsC7.length ∧
     (∀ e ∈ tallyC7.bySido, 0 ≤ e.2) ∧ 0 ≤ tallyC7.internet ∧ 0 ≤ tallyC7.other) :=
  ⟨rfl, C7_tally_invariants rowsC7 tallyC7 rfl⟩

/-! ## Claim C8: row rejection rules -/

/-- C8 counterexample: in the region parser a row whose text matches the
other tier's section label (`1등 배출점`) is dropped even though it has the
minimum three cells and matches neither the header signature (name and
address keywords) nor the "no results" phrase — a fourth rejection rule the
claim's "exactly when" omits. -/
theorem C8_counterexample :
    parse_rows_from_table_for_rank [["1등 배출점", "가", "나"]] 2 = [] ∧
    (["1등 배출점", "가", "나"] : List String).length = 3 ∧
    isHeaderRow (joinSpace ((["1등 배출점", "가", "나"] : List String).map normalize_text))
      = false ∧
    isNoResultsRow (joinSpace ((["1등 배출점", "가", "나"] : List String).map normalize_text))
      = false :=
  ⟨rfl, rfl, rfl, rfl⟩

/-- C8 amended: a single region-parser row is kept exactly when no cross-
tier stop label fires on its text, its joined cells show neither the
header signature nor the "no results" phrase, and it has at least 3 cells —
with no upper bound on the cell count, so extra trailing cells alone never
reject; a winner-stores rank-2 row is kept exactly when it has at least 3
cells and non-empty store name and address (that parser's header rows are
excluded by the cell-count rule, as header cells are `th`, not `td`). -/
theorem C8_row_rejection :
    (∀ (tr : List String) (rank_no : Nat),
      parse_rows_from_table_for_rank [tr] rank_no ≠ [] ↔
        (¬(rowTxt tr ≠ "" ∧ stopSearch (otherRankDigit rank_no) (rowTxt tr) = true) ∧
         isHeaderRow (joinSpace (tr.map normalize_text)) = false ∧
         isNoResultsRow (joinSpace (tr.map normalize_text)) = false ∧
         3 ≤ tr.length)) ∧
    (∀ tr : List String,
      parse_rank2_rows [tr] none ≠ [] ↔
        (3 ≤ tr.length ∧ r2StoreName tr ≠ "" ∧ r2Address tr ≠ "")) := by
  constructor
  · intro tr rank_no
    simp only [parse_rows_from_table_for_rank]
    by_cases h1 : rowTxt tr ≠ "" ∧ stopSearch (otherRankDigit rank_no) (rowTxt tr) = true
    · rw [if_pos h1]
      simp [h1]
    · rw [if_neg h1]
      by_cases h2 : tr.isEmpty
      · have h2e : tr = [] := by simpa [List.isEmpty_iff] using h2
        subst h2e
        simp [parse_rows_from_table_for_rank, h1]
      · rw [if_neg h2]
        by_cases h3 : isHeaderRow (joinSpace (tr.map normalize_text)) = true
        · rw [if_pos h3]
          simp [parse_rows_from_table_for_rank, h1, h3]
        · rw [if_neg h3]
          by_cases h4 : isNoResultsRow (joinSpace (tr.map normalize_text)) = true
          · rw [if_pos h4]
            simp [parse_rows_from_table_for_rank, h1, h3, h4]
          · rw [if_neg h4]
            by_cases h5 : 3 ≤ (tr.map normalize_text).length
            · rw [if_pos h5]
              simp only [List.length_map] at h5
              simp [h1, h3, h4, h5, Bool.not_eq_true]
            · rw [if_neg h5]
              simp only [List.length_map] at h5
              simp [parse_rows_from_table_for_rank, h1, h3, h4, h5, Bool.not_eq_true]
  · intro tr
    simp only [parse_rank2_rows, parse_rank2_rows_go]
    by_cases h1 : tr.length < 3
    · rw [if_pos h1]
      constructor
      · intro h; exact absurd rfl h
      · intro h; exact absurd h.1 (by omega)
    · rw [if_neg h1]
      by_cases h2 : r2StoreName tr = "" ∨ r2Address tr = ""
      · rw [if_pos h2]
        constructor
        · intro h; exact absurd rfl h
        · intro h
          rcases h2 with h2 | h2
          · exact absurd h2 h.2.1
          · exact absurd h2 h.2.2
      · rw [if_neg h2]
        push_neg at h2
        simp only [List.nil_append]
        constructor
        · intro _
          exact ⟨by omega, h2.1, h2.2⟩
        · intro _
          simp

/-- Witness for C8: a five-cell data row (two extra trailing cells) is kept
by both parsers. -/
theorem C8_row_rejection_witness :
    parse_rows_from_table_for_rank [["1", "상점", "부산 중구 1", "extra", "extra2"]] 2 ≠ [] ∧
    parse_rank2_rows [["1", "상점", "부산 중구 1", "extra"]] none ≠ [] :=
  ⟨(C8_row_rejection.1 ["1", "상점", "부산 중구 1", "extra", "extra2"] 2).mpr
     ⟨by decide, by decide, by decide, by decide⟩,
   (C8_row_rejection.2 ["1", "상점", "부산 중구 1", "extra"]).mpr
     ⟨by decide, by decide, by decide⟩⟩

/-! ## Claim C5: address resolution and the unclassified bucket -/

/-- C5 counterexample: in `normalize_region` a leading token absent from the
alias table (`뫄뫄`, and no administrative keyword anywhere in the text) is
kept verbatim as the region — the record is not marked with any
unclassified bucket (`기타` is used downstream only for an empty region,
and the online region is `온라인`). -/
theorem C5_counterexample :
    normalize_region "가게" "뫄뫄 123" = ("뫄뫄", "123", "offline") ∧
    aliasGet SIDO_ALIASES "뫄뫄" = none ∧
    (SIDO_ALIASES.all (fun kv => !(strContains "뫄뫄 123" kv.1))) = true ∧
    (SIDO_LIST.all (fun code => !(strContains "뫄뫄 123" code))) = true ∧
    ("뫄뫄" : String) ≠ "기타" ∧ ("뫄뫄" : String) ≠ "" ∧ ("뫄뫄" : String) ≠ "온라인" :=
  ⟨rfl, rfl, rfl, rfl, by decide, by decide, by decide⟩

/-- A successful `detect_sido` answer is one of the seventeen codes. -/
theorem detect_sido_mem (a : String) (s : String) (h : detect_sido a = some s) :
    s ∈ SIDO_LIST := by
  unfold detect_sido at h
  split at h
  · exact absurd h (by simp)
  · exact List.mem_of_find?_eq_some h

/-- `bumpKey` succeeds exactly on present keys and preserves the key list. -/
theorem bumpKey_isSome (bs : List (String × Nat)) (s : String)
    (h : s ∈ bs.map Prod.fst) : (bumpKey bs s).isSome := by
  induction bs with
  | nil => simp at h
  | cons kv rest ih =>
    simp only [List.map_cons, List.mem_cons] at h
    simp only [bumpKey]
    by_cases hk : kv.1 = s
    · rw [if_pos hk]; rfl
    · rw [if_neg hk]
      rcases h with h | h
      · exact absurd h.symm hk
      · cases hb : bumpKey rest s with
        | none => rw [hb] at ih; exact absurd (ih h) (by simp)
        | some r2 => simp

/-- `bumpKey` does not change the key list. -/
theorem bumpKey_keys (bs : List (String × Nat)) (s : String)
    (bs2 : List (String × Nat)) (h : bumpKey bs s = some bs2) :
    bs2.map Prod.fst = bs.map Prod.fst := by
  induction bs generalizing bs2 with
  | nil => exact absurd h (by simp [bumpKey])
  | cons kv rest ih =>
    simp only [bumpKey] at h
    by_cases hk : kv.1 = s
    · rw [if_pos hk] at h
      simp only [Option.some_inj] at h
      subst h
      simp
    · rw [if_neg hk] at h
      cases hb : bumpKey rest s with
      | none => rw [hb] at h; exact absurd h (by simp)
      | some r2 =>
        rw [hb] at h
        simp only [Option.map_some', Option.some_inj] at h
        subst h
        simp [ih r2 hb]

/-- The tally fold never raises: the bucket dictionary always carries the
seventeen codes, so `by_sido[s] += 1` always finds its key. -/
theorem tallyGo_isSome :
    ∀ (rows : List (List String)) (total : Nat) (bs : List (String × Nat))
      (internet other : Nat), bs.map Prod.fst = SIDO_LIST →
      (tallyGo rows total bs internet other).isSome := by
  intro rows
  induction rows with
  | nil => intro total bs internet other _; simp [tallyGo]
  | cons cells rest ih =>
    intro total bs internet other hkeys
    simp only [tallyGo]
    by_cases ho : is_online_row cells = true
    · rw [if_pos ho]
      exact ih _ _ _ _ hkeys
    · rw [if_neg ho]
      cases hd : detect_sido ((extract_address_from_row_cells cells).getD "") with
      | some s =>
        have hmem : s ∈ bs.map Prod.fst := by
          rw [hkeys]; exact detect_sido_mem _ _ hd
        cases hb : bumpKey bs s with
        | none =>
          have := bumpKey_isSome bs s hmem
          rw [hb] at this
          exact absurd this (by simp)
        | some bs2 =>
          simp only [hd, hb]
          exact ih _ _ _ _ (by rw [bumpKey_keys bs s bs2 hb, hkeys])
      | none =>
        simp only [hd]
        exact ih _ _ _ _ hkeys

/-- `tally` never fails on any input row list. -/
theorem tally_isSome (rows : List (List String)) : (tally rows).isSome :=
  tallyGo_isSome rows 0 sidoInit 0 0 (by decide)

/-! ### Substring lemmas for character lists -/

/-- A prefix of some suffix is a substring. -/
theorem listContains_of_prefix_drop {l sub : List Char} {i : Nat}
    (h : sub.isPrefixOf (l.drop i) = true) : listContains l sub = true := by
  unfold listContains
  rw [List.any_eq_true]
  by_cases hi : i ≤ l.length
  · exact ⟨i, List.mem_range.mpr (by omega), h⟩
  · refine ⟨l.length, List.mem_range.mpr (by omega), ?_⟩
    rw [List.drop_eq_nil_of_le (by omega)] at h
    cases sub with
    | nil => simp [List.isPrefixOf]
    | cons c cs => simp [List.isPrefixOf] at h

/-- A substring occurs as a prefix of some suffix. -/
theorem exists_of_listContains {l sub : List Char}
    (h : listContains l sub = true) : ∃ i, sub.isPrefixOf (l.drop i) = true := by
  unfold listContains at h
  rw [List.any_eq_true] at h
  rcases h with ⟨i, _, hp⟩
  exact ⟨i, hp⟩

/-- Substring occurrences in a tail lift to the whole list. -/
theorem listContains_cons {d : Char} {X sub : List Char}
    (h : listContains X sub = true) : listContains (d :: X) sub = true := by
  rcases exists_of_listContains h with ⟨i, hp⟩
  exact listContains_of_prefix_drop (i := i + 1) (by simpa using hp)

/-- Substring occurrence in a cons splits into a prefix match or a tail
occurrence. -/
theorem listContains_cons_elim {d : Char} {X sub : List Char}
    (h : listContains (d :: X) sub = true) :
    sub.isPrefixOf (d :: X) = true ∨ listContains X sub = true := by
  rcases exists_of_listContains h with ⟨i, hp⟩
  cases i with
  | zero => exact Or.inl hp
  | succ i => exact Or.inr (listContains_of_prefix_drop (i := i) (by simpa using hp))

/-- `isPrefixOf` unpacks to an append decomposition. -/
theorem prefix_ex : ∀ (a b : List Char), a.isPrefixOf b = true → ∃ r, b = a ++ r := by
  intro a
  induction a with
  | nil => intro b _; exact ⟨b, rfl⟩
  | cons c cs ih =>
    intro b h
    cases b with
    | nil => simp [List.isPrefixOf] at h
    | cons d ds =>
      simp only [List.isPrefixOf, Bool.and_eq_true, beq_iff_eq] at h
      rcases ih ds h.2 with ⟨r, hr⟩
      exact ⟨r, by rw [h.1, hr]; rfl⟩

/-- A list is a prefix of itself followed by anything. -/
theorem prefix_append_self : ∀ (a r : List Char), a.isPrefixOf (a ++ r) = true := by
  intro a
  induction a with
  | nil => intro r; simp [List.isPrefixOf]
  | cons c cs ih => intro r; simp [List.isPrefixOf, ih r]

/-- Extending the larger list keeps a prefix a prefix. -/
theorem prefix_mono_append : ∀ (p x y : List Char),
    p.isPrefixOf x = true → p.isPrefixOf (x ++ y) = true := by
  intro p x y h
  rcases prefix_ex p x h with ⟨r, rfl⟩
  rw [List.append_assoc]
  exact prefix_append_self p (r ++ y)

/-- Only the empty list borders the empty list. -/
theorem prefix_nil : ∀ (p : List Char), p.isPrefixOf ([] : List Char) = true → p = [] := by
  intro p h
  cases p with
  | nil => rfl
  | cons c cs => simp [List.isPrefixOf] at h

/-- Substring of the left part of an append. -/
theorem listContains_append_left {a b sub : List Char}
    (h : listContains a sub = true) : listContains (a ++ b) sub = true := by
  rcases exists_of_listContains h with ⟨i, hp⟩
  by_cases hi : i ≤ a.length
  · refine listContains_of_prefix_drop (i := i) ?_
    rw [List.drop_append_eq_append_drop]
    have h0 : i - a.length = 0 := by omega
    rw [h0, List.drop_zero]
    exact prefix_mono_append _ _ _ hp
  · rw [List.drop_eq_nil_of_le (by omega)] at hp
    have := prefix_nil sub hp
    subst this
    exact listContains_of_prefix_drop (i := 0) (by simp [List.isPrefixOf])

/-- Substring of the right part of an append. -/
theorem listContains_append_right {a b sub : List Char}
    (h : listContains b sub = true) : listContains (a ++ b) sub = true := by
  rcases exists_of_listContains h with ⟨i, hp⟩
  refine listContains_of_prefix_drop (i := a.length + i) ?_
  rw [List.drop_append_eq_append_drop, List.drop_eq_nil_of_le (by omega)]
  have h0 : a.length + i - a.length = i := by omega
  rw [h0]
  simpa using hp

/-- Substring containment is transitive. -/
theorem listContains_trans {a m sub : List Char}
    (h1 : listContains m sub = true) (h2 : listContains a m = true) :
    listContains a sub = true := by
  rcases exists_of_listContains h1 with ⟨j, hj⟩
  rcases exists_of_listContains h2 with ⟨i, hi⟩
  rcases prefix_ex m (a.drop i) hi with ⟨r, hr⟩
  by_cases hjm : j ≤ m.length
  · refine listContains_of_prefix_drop (i := i + j) ?_
    rw [← List.drop_drop, hr, List.drop_append_eq_append_drop]
    have h0 : j - m.length = 0 := by omega
    rw [h0, List.drop_zero]
    exact prefix_mono_append _ _ _ hj
  · rw [List.drop_eq_nil_of_le (by omega)] at hj
    have := prefix_nil sub hj
    subst this
    exact listContains_of_prefix_drop (i := 0) (by simp [List.isPrefixOf])

/-- A whitespace-free prefix of a collapse-normalized list (flag `false`)
is a prefix of the original list. -/
theorem prefix_collapse :
    ∀ (cs p : List Char), (∀ ch ∈ p, ch.isWhitespace = false) →
      p.isPrefixOf (collapseWs false cs) = true → p.isPrefixOf cs = true := by
  intro cs
  induction cs with
  | nil =>
    intro p _ h
    simpa [collapseWs] using h
  | cons d cs2 ih =>
    intro p hws h
    by_cases hd : d.isWhitespace
    · simp only [collapseWs, hd, if_true, if_false, Bool.false_eq_true] at h
      cases p with
      | nil => simp [List.isPrefixOf]
      | cons c cs3 =>
        simp only [List.isPrefixOf, Bool.and_eq_true, beq_iff_eq] at h
        have := hws c (by simp)
        rw [h.1] at this
        simp at this
    · simp only [collapseWs, hd, Bool.false_eq_true, if_false] at h
      cases p with
      | nil => simp [List.isPrefixOf]
      | cons c cs3 =>
        simp only [List.isPrefixOf, Bool.and_eq_true, beq_iff_eq] at h ⊢
        exact ⟨h.1, ih cs3 (fun ch hc => hws ch (by simp [hc])) h.2⟩

/-- A non-empty whitespace-free substring of a collapse-normalized list is a
substring of the original list (under either flag). -/
theorem listContains_collapse :
    ∀ (cs : List Char) (b : Bool) (c : List Char), c ≠ [] →
      (∀ ch ∈ c, ch.isWhitespace = false) →
      listContains (collapseWs b cs) c = true → listContains cs c = true := by
  intro cs
  induction cs with
  | nil =>
    intro b c hne hws h
    simp only [collapseWs] at h
    rcases exists_of_listContains h with ⟨i, hp⟩
    rw [List.drop_nil] at hp
    exact absurd (prefix_nil c hp) hne
  | cons d cs2 ih =>
    intro b c hne hws h
    by_cases hd : d.isWhitespace
    · by_cases hb : b
      · subst hb
        simp only [collapseWs, hd, if_true] at h
        exact listContains_cons (ih true c hne hws h)
      · simp only [Bool.not_eq_true] at hb
        subst hb
        simp only [collapseWs, hd, if_true, Bool.false_eq_true, if_false] at h
        rcases listContains_cons_elim h with hp | hX
        · cases c with
          | nil => exact absurd rfl hne
          | cons c0 c3 =>
            simp only [List.isPrefixOf, Bool.and_eq_true, beq_iff_eq] at hp
            have := hws c0 (by simp)
            rw [hp.1] at this
            simp at this
        · exact listContains_cons (ih true c hne hws hX)
    · simp only [collapseWs, hd, Bool.false_eq_true, if_false] at h
      rcases listContains_cons_elim h with hp | hX
      · cases c with
        | nil => exact absurd rfl hne
        | cons c0 c3 =>
          simp only [List.isPrefixOf, Bool.and_eq_true, beq_iff_eq] at hp
          refine listContains_of_prefix_drop (i := 0) ?_
          simp only [List.drop_zero, List.isPrefixOf, Bool.and_eq_true, beq_iff_eq]
          exact ⟨hp.1, prefix_collapse cs2 c3 (fun ch hc => hws ch (by simp [hc])) hp.2⟩
      · exact listContains_cons (ih false c hne hws hX)

/-- A substring of the stripped list is a substring of the original. -/
theorem listContains_strip (l c : List Char)
    (h : listContains (pyStripL l) c = true) : listContains l c = true := by
  have hm2 : l.dropWhile Char.isWhitespace
      = pyStripL l ++ ((l.dropWhile Char.isWhitespace).reverse.takeWhile Char.isWhitespace).reverse := by
    conv_lhs => rw [← List.reverse_reverse (l.dropWhile Char.isWhitespace),
      ← List.takeWhile_append_dropWhile (p := Char.isWhitespace)
        (l := (l.dropWhile Char.isWhitespace).reverse)]
    rw [List.reverse_append]
    rfl
  have h2 : listContains (l.dropWhile Char.isWhitespace) c = true := by
    rw [hm2]
    exact listContains_append_left h
  conv_lhs => rw [← List.takeWhile_append_dropWhile (p := Char.isWhitespace) (l := l)]
  exact listContains_append_right h2

/-- A non-empty whitespace-free substring of `normalize_text x` occurs in
`x` itself. -/
theorem listContains_normalize (x : String) (c : List Char) (hne : c ≠ [])
    (hws : ∀ ch ∈ c, ch.isWhitespace = false)
    (h : listContains (normalize_text x).data c = true) :
    listContains x.data c = true :=
  listContains_strip x.data c
    (listContains_collapse (pyStripL x.data) false c hne hws h)

/-- Every joined element is a substring of the join. -/
theorem listContains_joinSep (sep : String) :
    ∀ (texts : List String) (t : String), t ∈ texts →
      listContains (joinSep sep texts).data t.data = true := by
  intro texts
  induction texts with
  | nil => intro t ht; simp at ht
  | cons x xs ih =>
    intro t ht
    cases xs with
    | nil =>
      simp only [List.mem_singleton] at ht
      subst ht
      simp only [joinSep]
      have := prefix_append_self t.data []
      rw [List.append_nil] at this
      exact listContains_of_prefix_drop (i := 0) this
    | cons y ys =>
      rcases List.mem_cons.mp ht with rfl | ht2
      · show listContains (t ++ sep ++ joinSep sep (y :: ys)).data t.data = true
        rw [String.data_append, String.data_append]
        have hself : listContains t.data t.data = true := by
          have := prefix_append_self t.data []
          rw [List.append_nil] at this
          exact listContains_of_prefix_drop (i := 0) this
        exact listContains_append_left (listContains_append_left hself)
      · show listContains (x ++ sep ++ joinSep sep (y :: ys)).data t.data = true
        rw [String.data_append, String.data_append]
        exact listContains_append_right (ih t ht2)

/-- The address-shaped search finds nothing when no region code occurs. -/
theorem searchSidoSpace_eq_none :
    ∀ (l : List Char), (∀ code ∈ SIDO_LIST, listContains l code.data = false) →
      searchSidoSpace l = none := by
  intro l
  induction l with
  | nil => intro _; rfl
  | cons c rest ih =>
    intro h
    simp only [searchSidoSpace]
    have hm : matchSidoSpaceAt (c :: rest) = none := by
      unfold matchSidoSpaceAt
      rw [List.find?_eq_none.mpr, Option.map_none']
      intro code hcode
      simp only [Bool.and_eq_true, not_and]
      intro hpre _
      have := listContains_of_prefix_drop (i := 0) (by simpa using hpre)
      rw [h code hcode] at this
      exact absurd this (by simp)
    rw [hm]
    apply ih
    intro code hcode
    cases hcr : listContains rest code.data with
    | false => rfl
    | true =>
      have := listContains_cons (d := c) hcr
      rw [h code hcode] at this
      exact absurd this (by simp)

/-- The seventeen codes are non-empty and whitespace-free. -/
theorem sido_codes_wsfree :
    ∀ code ∈ SIDO_LIST, code.data ≠ [] ∧ ∀ ch ∈ code.data, ch.isWhitespace = false := by
  decide

/-- `detect_sido` finds nothing in a text containing no region code. -/
theorem detect_sido_eq_none (t : String)
    (h : ∀ code ∈ SIDO_LIST, listContains t.data code.data = false) :
    detect_sido t = none := by
  unfold detect_sido
  split
  · rfl
  · rw [List.find?_eq_none.mpr]
    intro code hcode
    simp only [Bool.and_eq_true, not_and]
    intro hpre _
    have hcc : listContains (normalize_text t).data code.data = true :=
      listContains_of_prefix_drop (i := 0) (by simpa using hpre)
    have hcw := sido_codes_wsfree code hcode
    have := listContains_normalize t code.data hcw.1 hcw.2 hcc
    rw [h code hcode] at this
    exact absurd this (by simp)

/-- Address extraction fails when no region code occurs anywhere in the
row's joined cell texts. -/
theorem extract_eq_none (cells : List String)
    (h : ∀ code ∈ SIDO_LIST,
      strContains (joinSep " | " ((cells.map normalize_text).filter (fun t => t ≠ "")))
        code = false) :
    extract_address_from_row_cells cells = none := by
  unfold extract_address_from_row_cells
  have htext : ∀ t ∈ (cells.map normalize_text).filter (fun t => t ≠ ""),
      ∀ code ∈ SIDO_LIST, listContains t.data code.data = false := by
    intro t ht code hcode
    cases hc : listContains t.data code.data with
    | false => rfl
    | true =>
      have hj := listContains_joinSep " | " _ t ht
      have := listContains_trans hc hj
      have hh := h code hcode
      unfold strContains at hh
      rw [hh] at this
      exact absurd this (by simp)
  have hfind : List.find? (fun t => (detect_sido t).isSome)
      ((cells.map normalize_text).filter (fun t => t ≠ "")) = none := by
    rw [List.find?_eq_none]
    intro t ht
    rw [detect_sido_eq_none t (htext t ht)]
    simp
  have hsearch : searchSidoSpace
      (joinSep " | " ((cells.map normalize_text).filter (fun t => t ≠ ""))).data = none := by
    apply searchSidoSpace_eq_none
    intro code hcode
    exact h code hcode
  simp only [hfind, hsearch]

/-- C5 amended: for a non-online record, `normalize_region` maps the leading
whitespace-separated token of the address through the alias table when it is
listed — the canonical region — but keeps an unlisted leading token
verbatim (it is not sent to any unclassified bucket; only an empty address
yields the empty region rendered as the catch-all downstream); in the
region script, `tally` never fails on any input, and a row that is not
online and whose cell texts contain no administrative region code anywhere
is counted in the unclassified `other` bucket. -/
theorem C5_address_resolution :
    (∀ (sn ad p0 : String) (rest : List String),
      is_online_store sn ad = false →
      pySplit (pyStrip ad) = p0 :: rest →
      normalize_region sn ad
        = ((aliasGet SIDO_ALIASES p0).getD p0, rest.headD "", "offline")) ∧
    (∀ rows : List (List String), (tally rows).isSome) ∧
    (∀ cells : List String, is_online_row cells = false →
      (∀ code ∈ SIDO_LIST,
        strContains (joinSep " | " ((cells.map normalize_text).filter (fun t => t ≠ "")))
          code = false) →
      tally [cells] = some ⟨1, sidoInit, 0, 1, 1, 0⟩) := by
  refine ⟨?_, tally_isSome, ?_⟩
  · intro sn ad p0 rest ho hsplit
    unfold normalize_region
    rw [if_neg (by simp [ho])]
    by_cases had : pyStrip ad = ""
    · rw [had] at hsplit
      simp [pySplit, wordsAux] at hsplit
    · rw [if_neg had, hsplit]
      cases rest with
      | nil => rfl
      | cons p1 ps => rfl
  · intro cells ho h
    have he := extract_eq_none cells h
    simp only [tally, tallyGo, ho, Bool.false_eq_true, if_false, he, Option.getD_none]
    rfl

/-- Witness for C5: the alias table canonicalizes `서울특별시`, an unlisted
leading token survives verbatim, the tally always succeeds, and a
keyword-free row lands in `other`. -/
theorem C5_address_resolution_witness :
    is_online_store "가게" " 서울특별시  강남구 7 " = false ∧
    pySplit (pyStrip " 서울특별시  강남구 7 ") = ["서울특별시", "강남구", "7"] ∧
    normalize_region "가게" " 서울특별시  강남구 7 " = ("서울", "강남구", "offline") ∧
    (tally [["1", "가", "모모 블라"]]).isSome ∧
    is_online_row ["1", "가", "모모 블라"] = false ∧
    tally [["1", "가", "모모 블라"]] = some ⟨1, sidoInit, 0, 1, 1, 0⟩ :=
  ⟨by decide, by decide,
   C5_address_resolution.1 "가게" " 서울특별시  강남구 7 " "서울특별시" ["강남구", "7"]
     (by decide) (by decide),
   C5_address_resolution.2.1 [["1", "가", "모모 블라"]],
   by decide,
   C5_address_resolution.2.2 ["1", "가", "모모 블라"] (by decide) (by decide)⟩
